import Mathlib

/-!
# Verification of the pds-oops core against its specification

This file gives a shallow embedding, in Lean 4, of the core algorithms of the
pds-oops repository that the frozen claims refer to:

* the photon light-time solver `Path._solve_photon` and its wrappers
  `Path.photon_to_event` / `Path.photon_from_event`
  (src/oops/path/baseclass.py, lines 302-486);
* the registry operations `Path.register` / `Path.unregister`
  (src/oops/path/baseclass.py, lines 123-208);
* the graph resolver `Path.connect_to` / `Path.common_ancestry` together with
  the virtual path subclasses `Linked`, `Relative`, `Reversed`, `Rotated`,
  `Waypoint` (src/oops/path/baseclass.py, lines 533-834);
* the `LinearPath` constructor and `event_at_time`
  (src/oops/path/linearpath.py);
* the memoizing `Backplane` engine (src/oops_/backplane.py): the event caches
  `get_surface_event`, `get_surface_event_w_derivs`, `get_path_event`,
  `get_surface_event_with_arr`, and the quantity methods `distance`,
  `light_time`, and the surface-resolution filler.

Modules of the repository that the above code depends on but whose sources are
not available (the `Event` class, the `oops.path.registry` module, the
`oops.constants` module and the `xarray` vector classes) are modelled from the
specification and from the standard mathematical meaning of their operations;
each such definition carries a doc comment saying so.

Machine reals are modelled by an arbitrary linear ordered field `K`
(instantiated with `ℚ` in concrete scenarios), so all arithmetic is exact.
-/

namespace Photon

/-- Modelled from the spec: the missing `oops.constants` module defines the
speed of light `C`; the spec gives "light-speed c ≈ 299792.458 km/s" (the
standard SPICE value), i.e. 299792458/1000 in exact arithmetic. -/
def cLight (K : Type) [DivisionRing K] : K := (299792458 : K) / 1000

/-- Modelled from the spec: a vector implementation, as provided by the missing
`oops.xarray` classes.  `norm` is the (nonnegative) Euclidean norm, `dot` the
dot product and `proj v p` the orthogonal projection of `v` onto `p`,
characterised by `‖proj v p‖ = |v·p| / ‖p‖`.  The structure abstracts over the
vector type so that the solver theorems hold for every implementation of these
operations; the `axisModel` below instantiates it with vectors confined to the
x-axis, on which all operations are exact rational arithmetic. -/
structure VecModel (K : Type) [LinearOrderedField K] (V : Type) [AddCommGroup V] where
  norm : V → K
  dot : V → V → K
  proj : V → V → V
  norm_nonneg : ∀ v, 0 ≤ norm v
  norm_proj : ∀ v p, norm (proj v p) = |dot v p| / norm p

/-- Modelled from the spec: the `Event` record (time, position, velocity and
the optional photon `arrival` / `departure` direction vectors, which start out
empty).  Following the spec ("Express both `event` and `target_node` relative
to the common inertial root"), events handed to the solver are already
expressed relative to the SSB in the J2000 frame, so the `wrt_ssb()` /
`wrt_frame()` conversions of the missing `Event` class are identities here. -/
structure Event (K V : Type) where
  time : K
  pos : V
  vel : V
  arr : Option V
  dep : Option V

variable {K V : Type} [LinearOrderedField K] [AddCommGroup V]

/-- One iteration of the Newton loop of `Path._solve_photon`
(src/oops/path/baseclass.py lines 440-448): evaluate the target path at
`event.time + lt`, form `delta_pos` and `delta_vel`, and update
`lt -= (delta_pos.norm() - lt * signed_c) /
       (delta_vel.proj(delta_pos).norm() - signed_c)`.
`pathFn t` returns the `(pos, vel)` of the target path relative to the SSB. -/
def newtonStep (M : VecModel K V) (pathFn : K → V × V) (e : Event K V)
    (signedC : K) (lt : K) : K :=
  let pathEv := pathFn (e.time + lt)
  let deltaPos := pathEv.1 - e.pos
  let deltaVel := pathEv.2 - e.vel
  lt - (M.norm deltaPos - lt * signedC) / (M.norm (M.proj deltaVel deltaPos) - signedC)

/-- The light-time value after `n` iterations of the Newton loop, starting
from the initial guess `lt0`. -/
def newtonIters (M : VecModel K V) (pathFn : K → V × V) (e : Event K V)
    (signedC : K) (lt0 : K) : ℕ → K
  | 0 => lt0
  | n + 1 => newtonStep M pathFn e signedC (newtonIters M pathFn e signedC lt0 n)

/-- The Newton update prescribed by the spec's own words: residual
`y = |Δposition| − sign·c·light_time`, derivative
`dy/dlt = (Δvelocity·Δposition/|Δposition|) − sign·c`, update
`light_time −= y / dy_dlt`.  Note the derivative uses the *signed* quantity
`Δv·Δp/|Δp|`, where the code uses the norm of a projection. -/
def specStep (M : VecModel K V) (pathFn : K → V × V) (e : Event K V)
    (signedC : K) (lt : K) : K :=
  let pathEv := pathFn (e.time + lt)
  let deltaPos := pathEv.1 - e.pos
  let deltaVel := pathEv.2 - e.vel
  lt - (M.norm deltaPos - lt * signedC) /
       (M.dot deltaVel deltaPos / M.norm deltaPos - signedC)

/-- The result of `Path._solve_photon`: the event on the target path
(`path_event_ssb`, with its photon direction filled in), the solved light
travel time `lt` (the `time` field of the returned relative event), and the
original event after the side-effecting backfill of its `arr`/`dep` field. -/
structure SolveResult (K V : Type) where
  pathEvent : Event K V
  lt : K
  origEvent : Event K V

/-- `Path._solve_photon` (src/oops/path/baseclass.py lines 369-486), with the
target path already expressed relative to the SSB (`pathFn`) and the event
already expressed relative to the SSB in J2000, as the code arranges through
`Path.connect(self, "SSB", "J2000")` and `event.wrt_ssb()`.
The initial guess is `lt = |path.pos(event.time) − event.pos| / signed_c`;
the Newton loop then runs `iters` times; finally the photon direction fields
are backfilled: for `sign < 0` the path event's `dep` and the original event's
`arr` are set to `event.pos − path.pos`, otherwise the path event's `arr` and
the original event's `dep` are set to `path.pos − event.pos`. -/
def solvePhoton (M : VecModel K V) (pathFn : K → V × V) (e : Event K V)
    (sign : K) (iters : ℕ) : SolveResult K V :=
  let signedC := sign * cLight K
  let lt0 := M.norm ((pathFn e.time).1 - e.pos) / signedC
  let lt := newtonIters M pathFn e signedC lt0 iters
  let pathEv := pathFn (e.time + lt)
  if sign < 0 then
    { pathEvent := { time := e.time + lt, pos := pathEv.1, vel := pathEv.2,
                     arr := none, dep := some (e.pos - pathEv.1) }
      lt := lt
      origEvent := { e with arr := some (e.pos - pathEv.1) } }
  else
    { pathEvent := { time := e.time + lt, pos := pathEv.1, vel := pathEv.2,
                     arr := some (pathEv.1 - e.pos), dep := none }
      lt := lt
      origEvent := { e with dep := some (pathEv.1 - e.pos) } }

/-- `Path.photon_to_event` (lines 335-367): solve with `sign = -1`
(direction "from-target"; default `iters = 3`). -/
def photonToEvent (M : VecModel K V) (pathFn : K → V × V) (e : Event K V)
    (iters : ℕ := 3) : SolveResult K V :=
  solvePhoton M pathFn e (-1) iters

/-- `Path.photon_from_event` (lines 302-333): solve with `sign = +1`
(direction "to-target"; default `iters = 3`). -/
def photonFromEvent (M : VecModel K V) (pathFn : K → V × V) (e : Event K V)
    (iters : ℕ := 3) : SolveResult K V :=
  solvePhoton M pathFn e 1 iters

/-- Vectors confined to the x-axis, represented by their x-component: the
Euclidean norm of `(x,0,0)` is `|x|`, the dot product of `(v,0,0)` and
`(p,0,0)` is `v*p`, and the projection of `(v,0,0)` onto `(p,0,0)` is
`((v*p)/(p*p))*(p,0,0)`.  All operations are exact over `ℚ`. -/
def axisModel : VecModel ℚ ℚ where
  norm x := |x|
  dot v p := v * p
  proj v p := (v * p) / (p * p) * p
  norm_nonneg v := abs_nonneg v
  norm_proj v p := by
    rcases eq_or_ne p 0 with h | h
    · simp [h]
    · show |v * p / (p * p) * p| = |v * p| / |p|
      rw [abs_mul, abs_div, abs_mul]
      field_simp [abs_ne_zero.mpr h]
      ring_nf
      rw [sq_abs]

end Photon

namespace LinP

/-- Modelled from the spec: a Vector3 value over exact rationals, as provided
by the missing polymath library. -/
structure V3 where
  x : ℚ
  y : ℚ
  z : ℚ
deriving DecidableEq

/-- Modelled from the spec: a Vector3 optionally carrying a `d_dt` derivative
("The velocity should be defined via a derivative 'd_dt'",
src/oops/path/linearpath.py line 24). -/
structure V3d where
  val : V3
  d_dt : Option V3
deriving DecidableEq

/-- Python exception kinds that the modelled code can raise. -/
inductive PyErr
  | typeError
  | attributeError
deriving DecidableEq

/-- A Python object, as far as the `hasattr` call in `LinearPath.__init__` is
concerned: either a string or a (derivative-carrying) Vector3. -/
inductive PyObj
  | str (s : String)
  | vec (v : V3d)
deriving DecidableEq

/-- Python's builtin `hasattr(obj, name)`: the attribute name must be a
string, otherwise a `TypeError` ("attribute name must be string") is raised;
for a Vector3 argument the only modelled attribute is `d_dt`, present exactly
when the vector carries a derivative. -/
def pyHasattr (obj nm : PyObj) : Except PyErr Bool :=
  match nm with
  | .str s =>
    match obj with
    | .vec v => .ok (s = "d_dt" && v.d_dt.isSome)
    | .str _ => .ok false
  | .vec _ => .error .typeError

/-- The `pos` argument of `LinearPath.__init__`: either a single Vector3 or a
`(position, velocity)` tuple of two Vector3 objects. -/
inductive PosArg
  | single (pos : V3d)
  | pair (pos vel : V3d)
deriving DecidableEq

/-- The state a successfully constructed `LinearPath` stores: `self.pos`,
`self.vel` (derivatives stripped by `.wod`) and `self.epoch`.  The
`origin` / `frame` / `path_id` bookkeeping attributes are not needed by any
claim and are omitted. -/
structure LinearPath where
  pos : V3
  vel : V3
  epoch : ℚ
deriving DecidableEq

def vzero : V3 := ⟨0, 0, 0⟩

def vadd (a b : V3) : V3 := ⟨a.x + b.x, a.y + b.y, a.z + b.z⟩

def vsmul (c : ℚ) (a : V3) : V3 := ⟨c * a.x, c * a.y, c * a.z⟩

/-- `LinearPath.__init__` (src/oops/path/linearpath.py lines 37-51).  A tuple
or list of length 2 stores `(pos[0].wod, pos[1].wod)`.  Otherwise the code
evaluates `hasattr('d_dt', pos)` — note the argument order of the source —
and, had it returned True/False, would store `pos.d_dt` / `Vector3.ZERO` as
the velocity. -/
def mkLinearPath (arg : PosArg) (epoch : ℚ) : Except PyErr LinearPath :=
  match arg with
  | .pair p v => .ok { pos := p.val, vel := v.val, epoch := epoch }
  | .single p =>
    match pyHasattr (.str "d_dt") (.vec p) with
    | .error e => .error e
    | .ok true => .ok { pos := p.val, vel := (p.d_dt.getD vzero), epoch := epoch }
    | .ok false => .ok { pos := p.val, vel := vzero, epoch := epoch }

/-- `LinearPath.event_at_time` (lines 73-84): the event holds position
`self.pos + (time - self.epoch) * self.vel` and velocity `self.vel`. -/
def eventAtTime (p : LinearPath) (t : ℚ) : V3 × V3 :=
  (vadd p.pos (vsmul (t - p.epoch) p.vel), p.vel)

end LinP

namespace Reg

/-- A key of the global path registry: the primary string key, or a
`(path_id, origin_id)` pair, or a `(path_id, origin_id, frame_id)` triple
(src/oops/path/baseclass.py lines 94-105). -/
inductive RKey
  | s (a : String)
  | p (a b : String)
  | t (a b c : String)
deriving DecidableEq

/-- A registered path, reduced to the attributes the registry code reads:
its ids and the `ancestry` chain of path ids filled in by a primary
registration (`self.ancestry = [self] + origin.ancestry`, line 160).  The
`ancestry` field is meaningful only for entries written by the primary
branch. -/
structure RegEntry where
  pathId : String
  originId : String
  frameId : String
  ancestry : List String
deriving DecidableEq

/-- Modelled from the spec: the missing `oops.path.registry` module stores
`REGISTRY`, a plain Python dict, used by `baseclass.py` through ordinary
indexing, assignment and `del`.  Modelled as an insertion-ordered association
list with unique keys. -/
abbrev Registry := List (RKey × RegEntry)

/-- The error kinds relevant to registry operations.  `keyError` is Python's
`KeyError` from a failed dict lookup or `del`.  `dependencyError` is modelled
from the spec, which says a registration with an unregistered origin "fails
with a `DependencyError`"; no code in the repository raises it. -/
inductive RegErr
  | keyError
  | dependencyError
deriving DecidableEq

def dlookup : Registry → RKey → Option RegEntry
  | [], _ => none
  | (k, v) :: r, key => if k = key then some v else dlookup r key

def hasKey (reg : Registry) (k : RKey) : Bool := (dlookup reg k).isSome

/-- Python dict assignment: replace in place if the key exists, else append. -/
def dinsert : Registry → RKey → RegEntry → Registry
  | [], k, v => [(k, v)]
  | (k0, v0) :: r, k, v =>
    if k0 = k then (k0, v) :: r else (k0, v0) :: dinsert r k v

/-- Python `del d[k]`: raises `KeyError` if the key is absent. -/
def ddel : Registry → RKey → Except RegErr Registry
  | [], _ => .error .keyError
  | (k0, v0) :: r, k =>
    if k0 = k then .ok r else (ddel r k).map (fun r2 => (k0, v0) :: r2)

def ssbEntry : RegEntry := ⟨"SSB", "SSB", "J2000", ["SSB"]⟩

def waypointEntry (pid fid : String) : RegEntry := ⟨pid, pid, fid, [pid]⟩

/-- `Path.initialize_registry` (lines 107-121): the registry holding the SSB
waypoint under its primary, secondary and tertiary keys. -/
def initRegistry : Registry :=
  [(.s "SSB", ssbEntry), (.p "SSB" "SSB", ssbEntry),
   (.t "SSB" "SSB" "J2000", ssbEntry)]

/-- The attributes a not-yet-registered path brings to `register`. -/
structure PathSpec where
  pathId : String
  originId : String
  frameId : String
deriving DecidableEq

/-- `Path.register` with no shortcut argument (lines 123-192).  The dict is
initialized if empty; then `registry.REGISTRY[self.origin_id]` is evaluated —
a plain dict lookup, raising `KeyError` when the origin is absent.  On a new
primary id the path and its Waypoint aliases are inserted, and (only when the
origin is not the SSB or the frame is not J2000) a connection to the SSB is
attempted inside a `try/except: pass`; since `connect_to` lives outside this
function, its outcome is passed in as `wrtSSB` (`none` when the attempt
raised and was swallowed).  Finally the secondary and tertiary keys are
filled in if absent.  Errors carry the registry state at raise time. -/
def registerPath (reg0 : Registry) (p : PathSpec) (wrtSSB : Option RegEntry) :
    Except (RegErr × Registry) Registry :=
  let reg := if reg0 = [] then initRegistry else reg0
  match dlookup reg (.s p.originId) with
  | none => .error (.keyError, reg)
  | some origin =>
    let selfE : RegEntry :=
      ⟨p.pathId, p.originId, p.frameId, p.pathId :: origin.ancestry⟩
    let reg :=
      if hasKey reg (.s p.pathId) then reg
      else
        let reg := dinsert reg (.s p.pathId) selfE
        let w := waypointEntry p.pathId p.frameId
        let reg := dinsert reg (.p p.pathId p.pathId) w
        let reg := dinsert reg (.t p.pathId p.pathId p.frameId) w
        if p.originId ≠ "SSB" ∨ p.frameId ≠ "J2000" then
          match wrtSSB with
          | some ws =>
            let reg := dinsert reg (.t ws.pathId "SSB" "J2000") ws
            if hasKey reg (.p ws.pathId "SSB") then reg
            else dinsert reg (.p ws.pathId "SSB") ws
          | none => reg
        else reg
    let reg :=
      if hasKey reg (.p p.pathId p.originId) then reg
      else dinsert reg (.p p.pathId p.originId) selfE
    let reg :=
      if hasKey reg (.t p.pathId p.originId p.frameId) then reg
      else dinsert reg (.t p.pathId p.originId p.frameId) selfE
    .ok reg

/-- A `del` that reports the pre-deletion registry next to the error, since a
Python `del` on a missing key raises without changing the dict. -/
def tryDel (st : Registry) (k : RKey) : Except (RegErr × Registry) Registry :=
  match ddel st k with
  | .ok st2 => .ok st2
  | .error e => .error (e, st)

/-- The body of the `unregister` loop (lines 202-208) for one key of the
snapshot: `if path_id == key: del`, then for tuple keys
`if path_id == key[0]: del` and `if path_id == key[1]: del` — three
independent `if` statements, so a key whose first and second components both
match is deleted twice, the second `del` raising `KeyError`. -/
def delStep (pathId : String) (st : Registry) (key : RKey) :
    Except (RegErr × Registry) Registry :=
  let first : Except (RegErr × Registry) Registry :=
    match key with
    | .s a => if a = pathId then tryDel st key else .ok st
    | _ => .ok st
  first.bind fun st1 =>
    match key with
    | .s _ => .ok st1
    | .p a b =>
      (if a = pathId then tryDel st1 key else .ok st1).bind fun st2 =>
        if b = pathId then tryDel st2 key else .ok st2
    | .t a b _ =>
      (if a = pathId then tryDel st1 key else .ok st1).bind fun st2 =>
        if b = pathId then tryDel st2 key else .ok st2

def unregGo (pathId : String) : List RKey → Registry → Except (RegErr × Registry) Registry
  | [], st => .ok st
  | k :: ks, st => (delStep pathId st k).bind (unregGo pathId ks)

/-- `Path.unregister` (lines 194-208): iterate over a snapshot of the keys
(Python 2's `.keys()` returns a list) in dict order, applying `delStep`. -/
def unregisterPath (reg : Registry) (pathId : String) :
    Except (RegErr × Registry) Registry :=
  unregGo pathId (reg.map Prod.fst) reg

/-- The registry after registering a path "B" with origin "SSB" in frame
"J2000" on a freshly initialized registry — the input on which `unregister`
is exercised. -/
def regWithB : Registry :=
  match registerPath initRegistry ⟨"B", "SSB", "J2000"⟩ none with
  | .ok r => r
  | .error _ => []

/-- Projection: the error reported by a registry operation, if any. -/
def errOf (r : Except (RegErr × Registry) Registry) : Option RegErr :=
  match r with
  | .error (e, _) => some e
  | .ok _ => none

/-- Projection: the registry state carried by the result (the post-state on
success, the state at raise time on error). -/
def stateOf (r : Except (RegErr × Registry) Registry) : Registry :=
  match r with
  | .error (_, st) => st
  | .ok st => st

end Reg

namespace Conn

variable {K V : Type} [LinearOrderedField K] [AddCommGroup V]

/-- A path node, reduced to what `connect_to` and the event operations read:
its ids and its evaluation function, returning the `(position, velocity)`
offset from its origin at a time, expressed in its frame. -/
structure PNode (K V : Type) where
  id : String
  origin : String
  frame : String
  ev : K → V × V

/-- Modelled from the spec: the frame registry's transform between two named
frames.  `Tf F G w` re-expresses the position/velocity pair `w` from frame `G`
in frame `F` (as performed by `rotate_by_frame` / `unrotate_by_frame` of the
missing `Event` class; a rotating frame mixes a spin term into the velocity,
which is still additive in `w`).  The connection laws (additivity,
composition, identity) appear as hypotheses of the theorems that need them. -/
abbrev Tf (V : Type) := String → String → V × V → V × V

/-- A full event record, as read by `subtract_from_event` / `add_to_event`
(src/oops/path/baseclass.py lines 243-296).  The `perp` and `vflat` subfields
are carried by `arr`/`dep`-like copies in the source and are omitted; `ssb`
and shape bookkeeping are likewise omitted. -/
structure PEvent (K V : Type) where
  time : K
  pos : V
  vel : V
  originId : String
  frameId : String
  arr : Option V
  dep : Option V

/-- A failed Python `assert`. -/
inductive AssertErr
  | assertionError
deriving DecidableEq

/-- `Path.subtract_from_event` (lines 243-270): assert the path's origin and
frame match the event's; evaluate the path at the event's time; return a new
event with the offset subtracted and the path's id as the new origin, the
photon fields copied over. -/
def subtractFromEvent (p : PNode K V) (e : PEvent K V) :
    Except AssertErr (PEvent K V) :=
  if p.origin = e.originId ∧ p.frame = e.frameId then
    let off := p.ev e.time
    .ok { time := e.time, pos := e.pos - off.1, vel := e.vel - off.2,
          originId := p.id, frameId := e.frameId, arr := e.arr, dep := e.dep }
  else .error .assertionError

/-- `Path.add_to_event` (lines 272-296): assert the path's endpoint matches
the event's origin and the frames match; return a new event with the offset
added and the path's origin as the new origin. -/
def addToEvent (p : PNode K V) (e : PEvent K V) :
    Except AssertErr (PEvent K V) :=
  if p.id = e.originId ∧ p.frame = e.frameId then
    let off := p.ev e.time
    .ok { time := e.time, pos := e.pos + off.1, vel := e.vel + off.2,
          originId := p.origin, frameId := e.frameId, arr := e.arr, dep := e.dep }
  else .error .assertionError

/-- `Waypoint` (lines 812-831): always returns the null event (zero offset,
zero velocity). -/
def waypointP (pid F : String) : PNode K V :=
  { id := pid, origin := pid, frame := F, ev := fun _ => 0 }

/-- `Reversed` (lines 748-778): negated position and velocity, swapped
origin/target identity, same frame. -/
def reversedP (p : PNode K V) : PNode K V :=
  { id := p.origin, origin := p.id, frame := p.frame, ev := fun t => - p.ev t }

/-- `Rotated` (lines 782-808): same path re-expressed in a new frame. -/
def rotatedP (T : Tf V) (p : PNode K V) (F : String) : PNode K V :=
  { id := p.id, origin := p.origin, frame := F,
    ev := fun t => T F p.frame (p.ev t) }

/-- `Relative` (lines 710-744): the first path's event re-expressed in the
origin path's frame, minus the origin path's event; both paths share a common
origin, which becomes implicit. -/
def relativeP (T : Tf V) (p o : PNode K V) : PNode K V :=
  { id := p.id, origin := o.id, frame := o.frame,
    ev := fun t => T o.frame p.frame (p.ev t) - o.ev t }

/-- The loop of `Linked.event_at_time` (lines 699-706): starting from the
first path's event, repeatedly unrotate into the next path's frame and add
that path's offset. -/
def linkedEvAux (T : Tf V) (t : K) : V × V → String → List (PNode K V) → V × V
  | cur, _, [] => cur
  | cur, curFr, q :: rest => linkedEvAux T t (T q.frame curFr cur + q.ev t) q.frame rest

/-- `Linked` (lines 671-706): chains a nonempty list of paths, the origin of
each being the id of the next; ids and frame from the list's endpoints. -/
def linkedP (T : Tf V) : List (PNode K V) → PNode K V
  | [] => waypointP "" ""
  | p :: rest =>
    { id := p.id, origin := (rest.getLastD p).origin,
      frame := (rest.getLastD p).frame,
      ev := fun t => linkedEvAux T t (p.ev t) p.frame rest }

/-- Lines 561-585 of `connect_to`: turn a trimmed ancestry list into the path
from the common ancestor — `None` when empty, the path itself when a
singleton, a `Linked` chain otherwise.  The registry shortcut lookups of the
source (which can only return an equivalent previously-registered chain) are
modelled as misses. -/
def buildChain (T : Tf V) : List (PNode K V) → Option (PNode K V)
  | [] => none
  | [p] => some p
  | ps => some (linkedP T ps)

/-- The inner loop of `Path.common_ancestry` (lines 616-620): scan `l2` for
the first node whose id matches `x`, returning the prefix of `l2` up to and
including it. -/
def idPrefix (x : String) : List (PNode K V) → Option (List (PNode K V))
  | [] => none
  | p :: ps => if p.id = x then some [p] else (idPrefix x ps).map (fun l => p :: l)

/-- The outer loop of `Path.common_ancestry` (lines 613-620), accumulating
the prefix of the first list. -/
def caAux (l2 : List (PNode K V)) : List (PNode K V) →
    Option (List (PNode K V) × List (PNode K V))
  | [] => none
  | p :: ps =>
    match idPrefix p.id l2 with
    | some pre2 => some ([p], pre2)
    | none => (caAux l2 ps).map (fun pr => (p :: pr.1, pr.2))

/-- `Path.common_ancestry` (lines 608-622): the pair of ancestry prefixes
ending at the first matching id; the full lists if no match exists ("should
never happen"). -/
def commonAncestry (l1 l2 : List (PNode K V)) :
    List (PNode K V) × List (PNode K V) :=
  (caAux l2 l1).getD (l1, l2)

/-- Lines 601-604: rotate the result into the requested frame only if it is
not already expressed there. -/
def condRotate (T : Tf V) (p : PNode K V) (F : String) : PNode K V :=
  if p.frame = F then p else rotatedP T p F

/-- The id of the first entry of an ancestry list (the path itself). -/
def headId : List (PNode K V) → String
  | [] => ""
  | p :: _ => p.id

/-- `Path.connect_to` (lines 533-606), acting on the stored ancestry lists of
the target and the origin (whose heads are the paths themselves): compute the
common ancestry, drop the matching final entries, build the two chains, then
combine — `Waypoint` if both are trivial, the chain itself or its `Reversed`
if only one is, `Relative` otherwise — and finally rotate into the requested
frame.  The `register()` calls mutate only the registry cache and do not
affect the returned path. -/
def connectTo (T : Tf V) (ancT ancO : List (PNode K V)) (F : String) :
    PNode K V :=
  let pr := commonAncestry ancT ancO
  let ta := pr.1.dropLast
  let oa := pr.2.dropLast
  let result :=
    match buildChain T ta, buildChain T oa with
    | none, none => waypointP (headId ancT) F
    | some tp, none => tp
    | none, some op => reversedP op
    | some tp, some op => relativeP T tp op
  condRotate T result F

end Conn

namespace BP

/-- Modelled from the spec: the observable content of an event object held in
the Backplane's dictionaries — an abstract value, the `arr_lt`/`dep_lt` light
time subfields read by `light_time`, and whether the arrival photon direction
has been filled in (`event.arr == Empty()` is the emptiness test of the
source). -/
structure Ev where
  val : ℚ
  arrLt : ℚ
  depLt : ℚ
  hasArr : Bool
deriving DecidableEq

def defEv : Ev := ⟨0, 0, 0, false⟩

/-- An event key: the ordered tuple of body names describing the photon path
(src/oops_/backplane.py lines 80-92). -/
abbrev EKey := List String

inductive Dir
  | arr
  | dep
deriving DecidableEq

/-- Backplane dictionary keys: the quantity name together with the event key
and any parameters, for the quantities modelled here
(`distance`, `light_time`, and the two surface-resolution planes). -/
inductive BKey
  | distance (c : EKey) (dir : Dir)
  | lightTime (c : EKey) (dir : Dir)
  | finestRes (c : EKey)
  | coarsestRes (c : EKey)
deriving DecidableEq

/-- One invocation of a photon solver: `surface.photon_to_event` on a chain
(with or without derivatives), or `path.photon_to_event` on a chain. -/
inductive SolveCall
  | surf (c : EKey) (derivs : Bool)
  | path (c : EKey)
deriving DecidableEq

/-- Modelled from the spec: the external collaborators the Backplane consults
— the observation's root event, the per-body `intercept_DERIVS_ARE_IMPLEMENTED`
flag, the surface and path photon solvers (pure functions of the chain here;
the Backplane only ever calls them on cache misses), and the resolution
formulas of `Surface.resolution`. -/
structure BPModel where
  obsEv : Ev
  derivsImpl : String → Bool
  solveSurf : EKey → Bool → Ev
  solvePath : EKey → Ev
  fRes : Ev → ℚ
  cRes : Ev → ℚ

/-- The mutable state of one Backplane instance: the four growing caches of
`__init__` (lines 94-125) and a chronological log of photon-solver
invocations (the instrumentation the claim is about). -/
structure BPState where
  surfaceEvents : List (EKey × Ev)
  surfaceEventsWD : List (EKey × Ev)
  pathEvents : List (EKey × Ev)
  backplanes : List (BKey × ℚ)
  log : List SolveCall

def alookup {α β : Type} [DecidableEq α] : List (α × β) → α → Option β
  | [], _ => none
  | (k, v) :: r, key => if k = key then some v else alookup r key

/-- Python dict assignment: replace in place if present, else append. -/
def ainsert {α β : Type} [DecidableEq α] : List (α × β) → α → β → List (α × β)
  | [], k, v => [(k, v)]
  | (k0, v0) :: r, k, v =>
    if k0 = k then (k0, v) :: r else (k0, v0) :: ainsert r k v

/-- In-place mutation of the object stored under a key (no-op if absent). -/
def aupd {α β : Type} [DecidableEq α] (f : β → β) : List (α × β) → α → List (α × β)
  | [], _ => []
  | (k0, v0) :: r, k =>
    if k0 = k then (k0, f v0) :: r else (k0, v0) :: aupd f r k

/-- `Backplane.__init__` (lines 94-125): the empty chain is pre-bound to the
observation's event in both surface dictionaries; the path-event, backplane
dictionaries and the solver log start empty. -/
def initState (m : BPModel) : BPState :=
  { surfaceEvents := [([], m.obsEv)], surfaceEventsWD := [([], m.obsEv)],
    pathEvents := [], backplanes := [], log := [] }

/-- Which event getter is running: `get_surface_event`,
`get_surface_event_w_derivs`, or `get_path_event`. -/
inductive GKind
  | plain
  | wd
  | pathEv
deriving DecidableEq

def gKindRank : GKind → ℕ
  | .plain => 1
  | .wd => 0
  | .pathEv => 0

/-- Python's `str.upper()` restricted to ASCII (all body names in the source
are ASCII), as a kernel-computable map over the string's characters. -/
def upChar (c : Char) : Char :=
  if 97 ≤ c.toNat ∧ c.toNat ≤ 122 then Char.ofNat (c.toNat - 32) else c

def pyUpper (s : String) : String := String.mk (s.data.map upChar)

/-- The three mutually recursive event getters of the Backplane
(src/oops_/backplane.py lines 217-315), combined into one function:

* `plain` is `get_surface_event`: on a cache miss, divert chains headed by
  the Sun (length > 1) to the path getter; otherwise resolve the destination
  (the chain's tail), prefer the with-derivatives getter for one-body chains
  whose surface implements intercept derivatives, else invoke
  `surface.photon_to_event` and cache the event;
* `wd` is `get_surface_event_w_derivs`: on a miss, resolve the destination,
  invoke the solver with derivatives, cache into the with-derivatives
  dictionary and (replacing any plain entry) into the plain dictionary;
* `pathEv` is `get_path_event`: on a miss, resolve the destination, invoke
  `path.photon_to_event` — whose side effect backfills the arrival photon on
  the destination's cached surface event — and cache the path event.

The `fuel` argument only drives structural termination: every recursive call
strictly decreases the measure `3·|chain| + rank`, and the `getEv` wrapper
supplies fuel exceeding that measure, so the zero-fuel branch is unreachable.
A lookup of the empty chain always succeeds (it is seeded at construction);
the `[] → obsEv` fallbacks only make the function total. -/
def getEvF (m : BPModel) : ℕ → EKey → GKind → BPState → Ev × BPState
  | 0, _, _, st => (defEv, st)
  | fuel + 1, c, .plain, st =>
    match alookup st.surfaceEvents c with
    | some ev => (ev, st)
    | none =>
      match c with
      | [] => (m.obsEv, st)
      | b :: rest =>
        if pyUpper b = "SUN" ∧ rest ≠ [] then getEvF m fuel (b :: rest) .pathEv st
        else
          let d := getEvF m fuel rest .plain st
          if (b :: rest).length = 1 ∧ m.derivsImpl b then
            let w := getEvF m fuel (b :: rest) .wd d.2
            ((alookup w.2.surfaceEvents (b :: rest)).getD defEv, w.2)
          else
            let ev := m.solveSurf (b :: rest) false
            (ev, { d.2 with
                   surfaceEvents := ainsert d.2.surfaceEvents (b :: rest) ev,
                   log := d.2.log ++ [.surf (b :: rest) false] })
  | fuel + 1, c, .wd, st =>
    match alookup st.surfaceEventsWD c with
    | some ev => (ev, st)
    | none =>
      match c with
      | [] => (m.obsEv, st)
      | b :: rest =>
        let d := getEvF m fuel rest .plain st
        let ev := m.solveSurf (b :: rest) true
        (ev, { d.2 with
               surfaceEventsWD := ainsert d.2.surfaceEventsWD (b :: rest) ev,
               surfaceEvents := ainsert d.2.surfaceEvents (b :: rest) ev,
               log := d.2.log ++ [.surf (b :: rest) true] })
  | fuel + 1, c, .pathEv, st =>
    match alookup st.pathEvents c with
    | some ev => (ev, st)
    | none =>
      match c with
      | [] => (m.obsEv, st)
      | b :: rest =>
        let d := getEvF m fuel rest .plain st
        let ev := m.solvePath (b :: rest)
        (ev, { d.2 with
               pathEvents := ainsert d.2.pathEvents (b :: rest) ev,
               surfaceEvents :=
                 aupd (fun e => { e with hasArr := true }) d.2.surfaceEvents rest,
               log := d.2.log ++ [.path (b :: rest)] })

/-- The event getters with enough fuel for their complete recursion. -/
def getEv (m : BPModel) (c : EKey) (k : GKind) (st : BPState) : Ev × BPState :=
  getEvF m (3 * c.length + 2) c k st

/-- `Backplane.get_surface_event_with_arr` (lines 317-325): fetch the surface
event; if its arrival photons are not yet filled in, resolve the path event
of the Sun prepended to the chain (whose side effect backfills them), and
return the (mutated) cached event. -/
def getSurfaceEventWithArr (m : BPModel) (st : BPState) (c : EKey) :
    Ev × BPState :=
  let r := getEv m c .plain st
  if r.1.hasArr then r
  else
    let r2 := getEv m ("sun" :: c) .pathEv r.2
    ((alookup r2.2.surfaceEvents c).getD r.1, r2.2)

/-- `Backplane.register_backplane` (lines 376-394), reduced to the stored
number (the scalar-expansion and key-attribute bookkeeping do not change
it). -/
def registerBP (st : BPState) (k : BKey) (v : ℚ) : BPState :=
  { st with backplanes := ainsert st.backplanes k v }

/-- `Backplane.light_time` (lines 564-586): consult the backplane cache;
on a miss, fetch the surface event (requiring arrival photons for the `arr`
direction), read the `arr_lt` / `dep_lt` subfield, and register its absolute
value. -/
def lightTimeQ (m : BPModel) (st : BPState) (c : EKey) (dir : Dir) :
    ℚ × BPState :=
  let key := BKey.lightTime c dir
  match alookup st.backplanes key with
  | some v => (v, st)
  | none =>
    let r := match dir with
      | .arr => getSurfaceEventWithArr m st c
      | .dep => getEv m c .plain st
    let ltv := match dir with
      | .arr => r.1.arrLt
      | .dep => r.1.depLt
    let st2 := registerBP r.2 key |ltv|
    ((alookup st2.backplanes key).getD 0, st2)

/-- `Backplane.distance` (lines 544-562): consult the backplane cache; on a
miss, obtain the light time and register `lt * C`. -/
def distanceQ (m : BPModel) (st : BPState) (c : EKey) (dir : Dir) :
    ℚ × BPState :=
  let key := BKey.distance c dir
  match alookup st.backplanes key with
  | some v => (v, st)
  | none =>
    let r := lightTimeQ m st c dir
    let st2 := registerBP r.2 key (r.1 * Photon.cLight ℚ)
    ((alookup st2.backplanes key).getD 0, st2)

/-- `Backplane._fill_surface_resolution` (lines 1236-1247): fetch the
with-derivatives surface event and register the finest and coarsest
resolution backplanes. -/
def fillSurfaceRes (m : BPModel) (st : BPState) (c : EKey) : BPState :=
  let r := getEv m c .wd st
  let st2 := registerBP r.2 (.finestRes c) (m.fRes r.1)
  registerBP st2 (.coarsestRes c) (m.cRes r.1)

/-- `Backplane.finest_resolution` (lines 1222-1234): consult the cache, fill
the surface-resolution backplanes on a miss. -/
def finestResQ (m : BPModel) (st : BPState) (c : EKey) : ℚ × BPState :=
  match alookup st.backplanes (BKey.finestRes c) with
  | some v => (v, st)
  | none =>
    let st2 := fillSurfaceRes m st c
    ((alookup st2.backplanes (BKey.finestRes c)).getD 0, st2)

/-- A client request for a named quantity. -/
inductive Req
  | dist (c : EKey) (dir : Dir)
  | ltq (c : EKey) (dir : Dir)
  | fin (c : EKey)

def runReq (m : BPModel) (st : BPState) : Req → BPState
  | .dist c dir => (distanceQ m st c dir).2
  | .ltq c dir => (lightTimeQ m st c dir).2
  | .fin c => (finestResQ m st c).2

def runReqs (m : BPModel) : List Req → BPState → BPState
  | [], st => st
  | r :: rs, st => runReqs m rs (runReq m st r)

/-- The number of surface-solver invocations recorded for a chain,
irrespective of the derivatives flag. -/
def countChainSurf (st : BPState) (c : EKey) : ℕ :=
  st.log.countP (fun sc =>
    match sc with
    | .surf c2 _ => c2 = c
    | .path _ => false)

/-- A concrete model: no surface implements intercept derivatives, and the
collaborator functions return inert events. -/
def cexModel : BPModel :=
  { obsEv := defEv, derivsImpl := fun _ => false,
    solveSurf := fun _ _ => defEv, solvePath := fun _ => defEv,
    fRes := fun _ => 0, cRes := fun _ => 0 }

/-- The cache/log coherence invariant of a Backplane state: every logged
solver invocation has its result cached in the corresponding dictionary, and
no invocation is logged twice. -/
def Inv (st : BPState) : Prop :=
  (∀ c : EKey, SolveCall.surf c false ∈ st.log →
      (alookup st.surfaceEvents c).isSome = true) ∧
  (∀ c : EKey, SolveCall.surf c true ∈ st.log →
      (alookup st.surfaceEventsWD c).isSome = true) ∧
  (∀ c : EKey, SolveCall.path c ∈ st.log →
      (alookup st.pathEvents c).isSome = true) ∧
  st.log.Nodup

end BP

namespace Photon

/-- The spec's concrete scenario, in the x-axis vector embedding: the
stationary path A sits at the origin of the root frame, so its SSB-relative
position and velocity are always zero. -/
def pathA : ℚ → ℚ × ℚ := fun _ => (0, 0)

/-- The spec's concrete scenario: the event at time t = 100 s on path B,
expressed relative to the SSB in J2000 (as `event.wrt_ssb()` produces it):
position (3e5, 0, 0) km, zero velocity, photon fields still empty. -/
def eventB : Event ℚ ℚ :=
  { time := 100, pos := 300000, vel := 0, arr := none, dep := none }

end Photon

namespace Conn

/-- A concrete path for exercising the event round trip: offset `(t, 1)` from
origin "O" in frame "F". -/
def pC9 : PNode ℚ ℚ :=
  { id := "P", origin := "O", frame := "F", ev := fun t => (t, 1) }

/-- A concrete event at origin "O" in frame "F". -/
def eC9 : PEvent ℚ ℚ :=
  { time := 2, pos := 5, vel := 7, originId := "O", frameId := "F",
    arr := none, dep := some 9 }

/-- The root node for the concrete connect scenario. -/
def ssbN : PNode ℚ ℚ :=
  { id := "SSB", origin := "SSB", frame := "J2000", ev := fun _ => (0, 0) }

/-- Stationary path A, child of the root. -/
def aN : PNode ℚ ℚ :=
  { id := "A", origin := "SSB", frame := "J2000", ev := fun _ => (1, 0) }

/-- Stationary path B, child of the root. -/
def bN : PNode ℚ ℚ :=
  { id := "B", origin := "SSB", frame := "J2000", ev := fun _ => (2, 0) }

/-- The identity frame transform (all frames coincide). -/
def idT : Tf ℚ := fun _ _ w => w

end Conn

namespace Reg

/-- A path whose declared origin "X" is not in the registry. -/
def pathP : PathSpec := ⟨"P", "X", "J2000"⟩

end Reg

/-! ## Theorems -/

/-- The light time returned by `_solve_photon` is the result of running the
Newton iteration from the initial guess
`|path.pos(event.time) − event.pos| / signed_c`. -/
theorem solvePhoton_lt {K V : Type} [LinearOrderedField K] [AddCommGroup V]
    (M : Photon.VecModel K V) (pathFn : K → V × V) (e : Photon.Event K V)
    (sign : K) (iters : ℕ) :
    (Photon.solvePhoton M pathFn e sign iters).lt =
      Photon.newtonIters M pathFn e (sign * Photon.cLight K)
        (M.norm ((pathFn e.time).1 - e.pos) / (sign * Photon.cLight K)) iters := by
  unfold Photon.solvePhoton
  split <;> rfl

/-- C4: for every event and target path, the photon solver with `iters = 0`
returns a light time whose magnitude is `|target.pos(event.time) − event.pos| / c`
— the Euclidean-distance estimate at the event's own time, with no Newton
refinement. -/
theorem c4_zero_iter_light_time {K V : Type} [LinearOrderedField K] [AddCommGroup V]
    (M : Photon.VecModel K V) (pathFn : K → V × V) (e : Photon.Event K V)
    (sign : K) (h : sign = 1 ∨ sign = -1) :
    |(Photon.solvePhoton M pathFn e sign 0).lt| =
      M.norm ((pathFn e.time).1 - e.pos) / Photon.cLight K := by
  rw [solvePhoton_lt]
  show |M.norm ((pathFn e.time).1 - e.pos) / (sign * Photon.cLight K)| = _
  have hc : (0 : K) < Photon.cLight K := by
    unfold Photon.cLight; positivity
  rw [abs_div, abs_mul, abs_of_nonneg (M.norm_nonneg _), abs_of_pos hc]
  rcases h with h | h <;> simp [h]

/-- C4 witness: the theorem applied to the x-axis model, a path at rest at
x = 7 and an event at the origin, with `sign = -1`. -/
theorem c4_zero_iter_light_time_witness :
    ((-1 : ℚ) = 1 ∨ (-1 : ℚ) = -1) ∧
    |(Photon.solvePhoton Photon.axisModel (fun _ => (7, 0))
        { time := 0, pos := 0, vel := 0, arr := none, dep := none } (-1) 0).lt| =
      Photon.axisModel.norm ((7 : ℚ) - 0) / Photon.cLight ℚ :=
  ⟨Or.inr rfl,
   c4_zero_iter_light_time Photon.axisModel (fun _ => (7, 0))
     { time := 0, pos := 0, vel := 0, arr := none, dep := none } (-1) (Or.inr rfl)⟩

/-- C5: every photon solve fills exactly one photon-direction field of the
original event — `arrival` for `photon_to_event` (sign −1), `departure` for
`photon_from_event` (sign +1) — leaving the other photon field and the
event's time, position and velocity unchanged. -/
theorem c5_backfill_exactly_one {K V : Type} [LinearOrderedField K] [AddCommGroup V]
    (M : Photon.VecModel K V) (pathFn : K → V × V) (e : Photon.Event K V)
    (iters : ℕ) :
    ((Photon.photonToEvent M pathFn e iters).origEvent.arr.isSome = true ∧
     (Photon.photonToEvent M pathFn e iters).origEvent.dep = e.dep ∧
     (Photon.photonToEvent M pathFn e iters).origEvent.time = e.time ∧
     (Photon.photonToEvent M pathFn e iters).origEvent.pos = e.pos ∧
     (Photon.photonToEvent M pathFn e iters).origEvent.vel = e.vel) ∧
    ((Photon.photonFromEvent M pathFn e iters).origEvent.dep.isSome = true ∧
     (Photon.photonFromEvent M pathFn e iters).origEvent.arr = e.arr ∧
     (Photon.photonFromEvent M pathFn e iters).origEvent.time = e.time ∧
     (Photon.photonFromEvent M pathFn e iters).origEvent.pos = e.pos ∧
     (Photon.photonFromEvent M pathFn e iters).origEvent.vel = e.vel) := by
  have hneg : ((-1 : K) < 0) := by norm_num
  have hpos : ¬ ((1 : K) < 0) := by norm_num
  constructor
  · simp only [Photon.photonToEvent, Photon.solvePhoton, if_pos hneg]
    exact ⟨rfl, trivial, trivial, trivial, trivial⟩
  · simp only [Photon.photonFromEvent, Photon.solvePhoton, if_neg hpos]
    exact ⟨rfl, trivial, trivial, trivial, trivial⟩

/-- C3 counterexample: at an event at rest at the origin, with the target
path at x = 10 km approaching at 3 km/s (so `Δv·Δp = −30 < 0`), direction
from-target (`signed_c = −1·c`), the code's Newton update — which divides by
`‖proj(Δv, Δp)‖ − sign·c` — differs from the claim's
`(Δv·Δp)/|Δp| − sign·c`: the code's derivative is `3 + c`, the claim's is
`−3 + c`. -/
theorem c3_counterexample :
    Photon.newtonStep Photon.axisModel (fun _ => (10, -3))
        { time := 0, pos := 0, vel := 0, arr := none, dep := none }
        (-1 * Photon.cLight ℚ) 0 ≠
    Photon.specStep Photon.axisModel (fun _ => (10, -3))
        { time := 0, pos := 0, vel := 0, arr := none, dep := none }
        (-1 * Photon.cLight ℚ) 0 := by
  simp only [Photon.newtonStep, Photon.specStep, Photon.axisModel, Photon.cLight]
  norm_num

/-- C3 amended: every Newton iteration of the photon solver updates the light
time by `lt −= y / dy_dlt` with residual `y = |Δp| − sign·c·lt`, but with
derivative `dy_dlt = |Δv·Δp| / |Δp| − sign·c` — the code takes the (unsigned)
norm of the projection of `Δv` onto `Δp`, not the signed quotient; the two
agree exactly when `Δv·Δp ≥ 0`. -/
theorem c3_amended {K V : Type} [LinearOrderedField K] [AddCommGroup V]
    (M : Photon.VecModel K V) (pathFn : K → V × V) (e : Photon.Event K V)
    (sign lt : K) :
    (∀ (lt0 : K) (n : ℕ),
      Photon.newtonIters M pathFn e (sign * Photon.cLight K) lt0 (n + 1) =
        Photon.newtonStep M pathFn e (sign * Photon.cLight K)
          (Photon.newtonIters M pathFn e (sign * Photon.cLight K) lt0 n)) ∧
    Photon.newtonStep M pathFn e (sign * Photon.cLight K) lt =
      lt - (M.norm ((pathFn (e.time + lt)).1 - e.pos) -
              lt * (sign * Photon.cLight K)) /
        (|M.dot ((pathFn (e.time + lt)).2 - e.vel)
              ((pathFn (e.time + lt)).1 - e.pos)| /
            M.norm ((pathFn (e.time + lt)).1 - e.pos) -
          sign * Photon.cLight K) := by
  refine ⟨fun _ _ => rfl, ?_⟩
  simp only [Photon.newtonStep]
  rw [M.norm_proj]

/-- In the spec's concrete scenario every Newton step reduces to
`lt − (3e5 + lt·c) / c`: the target is at rest at the origin, so the
separation is always 3e5 km and the velocity term vanishes. -/
theorem scenarioStep (lt : ℚ) :
    Photon.newtonStep Photon.axisModel Photon.pathA Photon.eventB
      (-1 * Photon.cLight ℚ) lt =
    lt - (300000 + lt * Photon.cLight ℚ) / Photon.cLight ℚ := by
  simp only [Photon.newtonStep, Photon.axisModel, Photon.pathA, Photon.eventB]
  norm_num

/-- In the concrete scenario the solver returns the light time
`−(3e5 / c)`: the initial guess is already the exact (negative) root and all
three Newton iterations leave it unchanged. -/
theorem scenarioLt :
    (Photon.photonToEvent Photon.axisModel Photon.pathA Photon.eventB).lt =
      -(300000 / Photon.cLight ℚ) := by
  have hc : (0 : ℚ) < Photon.cLight ℚ := by unfold Photon.cLight; norm_num
  have hfix : Photon.newtonStep Photon.axisModel Photon.pathA Photon.eventB
      (-1 * Photon.cLight ℚ) (-(300000 / Photon.cLight ℚ)) =
      -(300000 / Photon.cLight ℚ) := by
    rw [scenarioStep]
    field_simp
  show (Photon.solvePhoton _ _ _ (-1) 3).lt = _
  rw [solvePhoton_lt]
  have hinit : Photon.axisModel.norm
      ((Photon.pathA Photon.eventB.time).1 - Photon.eventB.pos) /
        (-1 * Photon.cLight ℚ) = -(300000 / Photon.cLight ℚ) := by
    simp only [Photon.pathA, Photon.eventB, Photon.axisModel]
    rw [neg_one_mul, div_neg]
    norm_num
  rw [hinit]
  simp only [Photon.newtonIters, hfix]

/-- In the concrete scenario the backfilled arrival vector on the B-event is
the full separation vector from A to B — `(3e5, 0, 0)`, not normalized. -/
theorem scenarioArr :
    (Photon.photonToEvent Photon.axisModel Photon.pathA
        Photon.eventB).origEvent.arr = some 300000 := by
  have hneg : ((-1 : ℚ) < 0) := by norm_num
  simp only [Photon.photonToEvent, Photon.solvePhoton, if_pos hneg]
  simp [Photon.pathA, Photon.eventB]

/-- C1 counterexample: in the spec's scenario (stationary A at the origin,
B at (3e5,0,0) km, `photon_to_event` from the B-event against A) the solver's
light time is negative — `−3e5/c ≈ −1.0007 s`, not `≈ +1.0005 s` — and the
backfilled arrival vector is `(3e5, 0, 0)`, not the unit vector `(1, 0, 0)`
from A to B. -/
theorem c1_counterexample :
    (Photon.photonToEvent Photon.axisModel Photon.pathA Photon.eventB).lt < 0 ∧
    (Photon.photonToEvent Photon.axisModel Photon.pathA
        Photon.eventB).origEvent.arr ≠ some 1 := by
  constructor
  · rw [scenarioLt]
    have hc : (0 : ℚ) < Photon.cLight ℚ := by unfold Photon.cLight; norm_num
    have : (0 : ℚ) < 300000 / Photon.cLight ℚ := by positivity
    linarith
  · rw [scenarioArr]
    norm_num

/-- C1 amended: in the spec's scenario the solver converges to the light time
`−(3e5/c)` (magnitude `3e5/c ≈ 1.0007 s`; negative because the departure from
A is earlier than the arrival at B), and the backfilled arrival vector on the
B-event is the full separation vector from A to B, `(3e5, 0, 0)` — pointing
from A to B but with length `3e5` km, not a unit vector. -/
theorem c1_amended :
    (Photon.photonToEvent Photon.axisModel Photon.pathA Photon.eventB).lt =
      -(300000 / Photon.cLight ℚ) ∧
    |(Photon.photonToEvent Photon.axisModel Photon.pathA Photon.eventB).lt| =
      300000 / Photon.cLight ℚ ∧
    (Photon.photonToEvent Photon.axisModel Photon.pathA
        Photon.eventB).origEvent.arr = some 300000 := by
  refine ⟨scenarioLt, ?_, scenarioArr⟩
  rw [scenarioLt]
  have hc : (0 : ℚ) < Photon.cLight ℚ := by unfold Photon.cLight; norm_num
  rw [abs_neg, abs_of_pos (by positivity)]

/-- C9: for a path and an event sharing the path's origin and frame,
`subtract_from_event` followed by `add_to_event` is a round trip: the
resulting event has the same time, position, velocity, origin and frame (and
photon fields) as the original. -/
theorem c9_roundtrip {K V : Type} [LinearOrderedField K] [AddCommGroup V]
    (p : Conn.PNode K V) (e : Conn.PEvent K V)
    (h1 : p.origin = e.originId) (h2 : p.frame = e.frameId) :
    (Conn.subtractFromEvent p e).bind (Conn.addToEvent p) = Except.ok e := by
  unfold Conn.subtractFromEvent
  rw [if_pos ⟨h1, h2⟩]
  show Conn.addToEvent p _ = _
  unfold Conn.addToEvent
  rw [if_pos ⟨rfl, h2⟩]
  cases e with
  | mk time pos vel o f arr dep =>
    simp only [Except.ok.injEq]
    congr 1 <;> simp [h1]

/-- C9 witness: the round trip at a concrete path and event over `ℚ`. -/
theorem c9_roundtrip_witness :
    Conn.pC9.origin = Conn.eC9.originId ∧ Conn.pC9.frame = Conn.eC9.frameId ∧
    (Conn.subtractFromEvent Conn.pC9 Conn.eC9).bind (Conn.addToEvent Conn.pC9) =
      Except.ok Conn.eC9 :=
  ⟨rfl, rfl, c9_roundtrip Conn.pC9 Conn.eC9 rfl rfl⟩

/-- C10 counterexample: constructing a `LinearPath` from a single position
Vector3 — here one that carries a `d_dt` derivative — does not store a zero
velocity: the constructor raises `TypeError`, because the source calls
`hasattr('d_dt', pos)` with its arguments swapped and Python's `hasattr`
requires the attribute name (here the Vector3) to be a string. -/
theorem c10_counterexample :
    LinP.mkLinearPath (.single ⟨⟨1, 2, 3⟩, some ⟨4, 5, 6⟩⟩) 0 =
      Except.error LinP.PyErr.typeError := rfl

/-- C10 amended: for every single-Vector3 argument (with or without a `d_dt`
derivative) and every epoch, the `LinearPath` constructor raises `TypeError`
from the swapped `hasattr('d_dt', pos)` call; no path object is produced, so
`event_at_time` is never reached.  (The `(position, velocity)` tuple form
constructs normally.) -/
theorem c10_amended :
    ∀ (p : LinP.V3d) (epoch : ℚ),
      LinP.mkLinearPath (.single p) epoch = Except.error LinP.PyErr.typeError :=
  fun _ _ => rfl

/-- C7 counterexample: registering a path whose declared origin "X" is absent
from an initialized registry fails with a `KeyError` (the plain dict lookup
`registry.REGISTRY[self.origin_id]`), not a `DependencyError`; the registry
is left as it was. -/
theorem c7_counterexample :
    Reg.registerPath Reg.initRegistry Reg.pathP none =
      Except.error (Reg.RegErr.keyError, Reg.initRegistry) ∧
    Reg.RegErr.keyError ≠ Reg.RegErr.dependencyError := by
  refine ⟨rfl, ?_⟩
  intro h
  cases h

/-- C7 amended: whenever the declared origin is not a key of the registry
(after the initialize-if-empty step), `register` raises `KeyError`, and the
registry at the moment of the raise is the input registry — except that an
empty registry has first been initialized with the SSB entries. -/
theorem c7_amended (reg0 : Reg.Registry) (p : Reg.PathSpec)
    (w : Option Reg.RegEntry)
    (h : Reg.dlookup (if reg0 = [] then Reg.initRegistry else reg0)
        (.s p.originId) = none) :
    Reg.registerPath reg0 p w =
      Except.error (Reg.RegErr.keyError,
        if reg0 = [] then Reg.initRegistry else reg0) := by
  unfold Reg.registerPath
  simp only [h]

/-- C7 amended witness: registering `pathP` on the empty registry. -/
theorem c7_amended_witness :
    Reg.dlookup (if ([] : Reg.Registry) = [] then Reg.initRegistry else [])
        (.s Reg.pathP.originId) = none ∧
    Reg.registerPath [] Reg.pathP none =
      Except.error (Reg.RegErr.keyError,
        if ([] : Reg.Registry) = [] then Reg.initRegistry else []) :=
  ⟨rfl, c7_amended [] Reg.pathP none rfl⟩

/-- C8: on the registry produced by registering path "B" (origin "SSB",
frame "J2000") — which contains the composite Waypoint key `("B","B")` —
`unregister("B")` raises `KeyError` instead of completing: the loop body
deletes a tuple key whose first component matches and then attempts to delete
the same key again because its second component also matches. -/
theorem c8_unregister_crash :
    Reg.hasKey Reg.regWithB (.p "B" "B") = true ∧
    Reg.errOf (Reg.unregisterPath Reg.regWithB "B") =
      some Reg.RegErr.keyError := ⟨rfl, rfl⟩

/-- If no element of `l` has id `x`, the ancestry scan finds nothing. -/
theorem idPrefix_none {K V : Type} [LinearOrderedField K] [AddCommGroup V]
    (x : String) (l : List (Conn.PNode K V)) (h : ∀ p ∈ l, p.id ≠ x) :
    Conn.idPrefix x l = none := by
  induction l with
  | nil => rfl
  | cons p ps ih =>
    simp only [Conn.idPrefix]
    rw [if_neg (h p (List.mem_cons_self p ps))]
    rw [ih fun q hq => h q (List.mem_cons_of_mem p hq)]
    rfl

/-- If no element of `l` has id `x` but `q` does, the scan of `l ++ q :: rest`
returns the prefix `l ++ [q]`. -/
theorem idPrefix_concat {K V : Type} [LinearOrderedField K] [AddCommGroup V]
    (x : String) (l : List (Conn.PNode K V)) (h : ∀ p ∈ l, p.id ≠ x)
    (q : Conn.PNode K V) (hq : q.id = x) (rest : List (Conn.PNode K V)) :
    Conn.idPrefix x (l ++ q :: rest) = some (l ++ [q]) := by
  induction l with
  | nil => simp [Conn.idPrefix, hq]
  | cons p ps ih =>
    simp only [List.cons_append, Conn.idPrefix, List.append_eq]
    rw [if_neg (h p (List.mem_cons_self p ps))]
    rw [ih fun r hr => h r (List.mem_cons_of_mem p hr)]
    rfl

/-- The double scan of `common_ancestry` on two ancestry lists that share the
suffix `h :: s2`, whose prefixes have no id in common with each other or with
the suffix, stops exactly at `h` — the nearest common ancestor — returning
both prefixes extended by `h`. -/
theorem caAux_spec {K V : Type} [LinearOrderedField K] [AddCommGroup V]
    (uA uB s2 : List (Conn.PNode K V)) (h : Conn.PNode K V)
    (hA : ∀ p ∈ uA, ∀ q ∈ uB ++ h :: s2, p.id ≠ q.id)
    (hB : ∀ q ∈ uB, q.id ≠ h.id) :
    Conn.caAux (uB ++ h :: s2) (uA ++ h :: s2) =
      some (uA ++ [h], uB ++ [h]) := by
  induction uA with
  | nil =>
    simp only [List.nil_append, Conn.caAux]
    rw [idPrefix_concat h.id uB (fun q hq => hB q hq) h rfl s2]
  | cons p uA' ih =>
    simp only [List.cons_append, Conn.caAux, List.append_eq]
    rw [idPrefix_none p.id (uB ++ h :: s2)
      (fun q hq => (hA p (List.mem_cons_self p uA') q hq).symm)]
    rw [ih (fun r hr => hA r (List.mem_cons_of_mem p hr))]
    rfl

/-- An additive frame transform maps zero to zero. -/
theorem tfZero {V : Type} [AddCommGroup V] (T : Conn.Tf V)
    (hTadd : ∀ a b x y, T a b (x + y) = T a b x + T a b y) (a b : String) :
    T a b 0 = 0 := by
  have h := hTadd a b 0 0
  rw [add_zero] at h
  exact (self_eq_add_right.mp h)

/-- An additive frame transform commutes with negation. -/
theorem tfNeg {V : Type} [AddCommGroup V] (T : Conn.Tf V)
    (hTadd : ∀ a b x y, T a b (x + y) = T a b x + T a b y) (a b : String)
    (x : V × V) : T a b (-x) = - T a b x := by
  have h := hTadd a b x (-x)
  rw [add_neg_cancel, tfZero T hTadd] at h
  exact (eq_neg_of_add_eq_zero_right h.symm)

/-- An additive frame transform commutes with subtraction. -/
theorem tfSub {V : Type} [AddCommGroup V] (T : Conn.Tf V)
    (hTadd : ∀ a b x y, T a b (x + y) = T a b x + T a b y) (a b : String)
    (x y : V × V) : T a b (x - y) = T a b x - T a b y := by
  rw [sub_eq_add_neg, hTadd, tfNeg T hTadd, sub_eq_add_neg]

/-- The conditional rotation of `connect_to` evaluates as the frame transform
into the requested frame (the identity when already there). -/
theorem condRotate_ev {K V : Type} [LinearOrderedField K] [AddCommGroup V]
    (T : Conn.Tf V) (hTid : ∀ a w, T a a w = w)
    (p : Conn.PNode K V) (F : String) (t : K) :
    (Conn.condRotate T p F).ev t = T F p.frame (p.ev t) := by
  unfold Conn.condRotate
  split
  · next hf => rw [hf, hTid]
  · rfl

/-- C6: for two registered paths A and B whose stored ancestry lists share
the common suffix `h :: s2` (with `h` the nearest common ancestor, ids
globally unique along both chains), and for any frame `F` and any additive,
functorial frame transform, the paths returned by `connect(B, A, F)` and
`connect(A, B, F)` compose to the identity: at every time the two position
offsets sum to zero and the two velocity offsets sum to zero. -/
theorem c6_connect_inverse {K V : Type} [LinearOrderedField K] [AddCommGroup V]
    (T : Conn.Tf V)
    (hTadd : ∀ a b x y, T a b (x + y) = T a b x + T a b y)
    (hTcomp : ∀ a b c w, T a b (T b c w) = T a c w)
    (hTid : ∀ a w, T a a w = w)
    (uA uB s2 : List (Conn.PNode K V)) (h : Conn.PNode K V)
    (hndA : ((uA ++ h :: s2).map Conn.PNode.id).Nodup)
    (hndB : ((uB ++ h :: s2).map Conn.PNode.id).Nodup)
    (hdisj : ∀ p ∈ uA, ∀ q ∈ uB, p.id ≠ q.id)
    (F : String) (t : K) :
    ((Conn.connectTo T (uB ++ h :: s2) (uA ++ h :: s2) F).ev t).1 +
      ((Conn.connectTo T (uA ++ h :: s2) (uB ++ h :: s2) F).ev t).1 = 0 ∧
    ((Conn.connectTo T (uB ++ h :: s2) (uA ++ h :: s2) F).ev t).2 +
      ((Conn.connectTo T (uA ++ h :: s2) (uB ++ h :: s2) F).ev t).2 = 0 := by
  have hdA : List.Disjoint (uA.map Conn.PNode.id) ((h :: s2).map Conn.PNode.id) := by
    rw [List.map_append] at hndA
    exact List.disjoint_of_nodup_append hndA
  have hdB : List.Disjoint (uB.map Conn.PNode.id) ((h :: s2).map Conn.PNode.id) := by
    rw [List.map_append] at hndB
    exact List.disjoint_of_nodup_append hndB
  have hA : ∀ p ∈ uA, ∀ q ∈ uB ++ h :: s2, p.id ≠ q.id := by
    intro p hp q hq
    rcases List.mem_append.mp hq with hq | hq
    · exact hdisj p hp q hq
    · intro he
      exact hdA (List.mem_map_of_mem _ hp) (he ▸ List.mem_map_of_mem _ hq)
  have hB : ∀ q ∈ uB, q.id ≠ h.id := by
    intro q hq he
    exact hdB (List.mem_map_of_mem _ hq)
      (he ▸ List.mem_map_of_mem Conn.PNode.id (List.mem_cons_self h s2))
  have hA2 : ∀ p ∈ uB, ∀ q ∈ uA ++ h :: s2, p.id ≠ q.id := by
    intro p hp q hq
    rcases List.mem_append.mp hq with hq | hq
    · exact fun he => hdisj q hq p hp he.symm
    · intro he
      exact hdB (List.mem_map_of_mem _ hp) (he ▸ List.mem_map_of_mem _ hq)
  have hB2 : ∀ q ∈ uA, q.id ≠ h.id := by
    intro q hq he
    exact hdA (List.mem_map_of_mem _ hq)
      (he ▸ List.mem_map_of_mem Conn.PNode.id (List.mem_cons_self h s2))
  have e1 : Conn.commonAncestry (uB ++ h :: s2) (uA ++ h :: s2) =
      (uB ++ [h], uA ++ [h]) := by
    unfold Conn.commonAncestry
    rw [caAux_spec uB uA s2 h hA2 hB2]
    rfl
  have e2 : Conn.commonAncestry (uA ++ h :: s2) (uB ++ h :: s2) =
      (uA ++ [h], uB ++ [h]) := by
    unfold Conn.commonAncestry
    rw [caAux_spec uA uB s2 h hA hB]
    rfl
  have hdl : ∀ (l : List (Conn.PNode K V)), (l ++ [h]).dropLast = l := by
    intro l; simp
  have main : (Conn.connectTo T (uB ++ h :: s2) (uA ++ h :: s2) F).ev t +
      (Conn.connectTo T (uA ++ h :: s2) (uB ++ h :: s2) F).ev t = 0 := by
    simp only [Conn.connectTo, e1, e2, hdl]
    cases hbB : Conn.buildChain T uB with
    | none =>
      cases hbA : Conn.buildChain T uA with
      | none => simp [Conn.condRotate, Conn.waypointP]
      | some o =>
        rw [condRotate_ev T hTid, condRotate_ev T hTid]
        show T F (Conn.reversedP o).frame (- o.ev t) + T F o.frame (o.ev t) = 0
        show T F o.frame (- o.ev t) + T F o.frame (o.ev t) = 0
        rw [tfNeg T hTadd]
        exact neg_add_cancel _
    | some p =>
      cases hbA : Conn.buildChain T uA with
      | none =>
        rw [condRotate_ev T hTid, condRotate_ev T hTid]
        show T F p.frame (p.ev t) + T F (Conn.reversedP p).frame (- p.ev t) = 0
        show T F p.frame (p.ev t) + T F p.frame (- p.ev t) = 0
        rw [tfNeg T hTadd]
        exact add_neg_cancel _
      | some o =>
        rw [condRotate_ev T hTid, condRotate_ev T hTid]
        show T F (Conn.relativeP T p o).frame
            (T o.frame p.frame (p.ev t) - o.ev t) +
          T F (Conn.relativeP T o p).frame
            (T p.frame o.frame (o.ev t) - p.ev t) = 0
        show T F o.frame (T o.frame p.frame (p.ev t) - o.ev t) +
          T F p.frame (T p.frame o.frame (o.ev t) - p.ev t) = 0
        rw [tfSub T hTadd, tfSub T hTadd, hTcomp, hTcomp]
        abel
  constructor
  · rw [← Prod.fst_add, main]
    rfl
  · rw [← Prod.snd_add, main]
    rfl

/-- C6 witness: the inverse law applied to the concrete two-path registry
(A and B children of the SSB root, identity frame transform) at time 5. -/
theorem c6_connect_inverse_witness :
    ((([Conn.aN] ++ Conn.ssbN :: []).map Conn.PNode.id).Nodup ∧
     (([Conn.bN] ++ Conn.ssbN :: []).map Conn.PNode.id).Nodup ∧
     (∀ p ∈ [Conn.aN], ∀ q ∈ [Conn.bN], Conn.PNode.id p ≠ Conn.PNode.id q)) ∧
    (((Conn.connectTo Conn.idT ([Conn.bN] ++ Conn.ssbN :: [])
          ([Conn.aN] ++ Conn.ssbN :: []) "J2000").ev 5).1 +
        ((Conn.connectTo Conn.idT ([Conn.aN] ++ Conn.ssbN :: [])
          ([Conn.bN] ++ Conn.ssbN :: []) "J2000").ev 5).1 = 0 ∧
      ((Conn.connectTo Conn.idT ([Conn.bN] ++ Conn.ssbN :: [])
          ([Conn.aN] ++ Conn.ssbN :: []) "J2000").ev 5).2 +
        ((Conn.connectTo Conn.idT ([Conn.aN] ++ Conn.ssbN :: [])
          ([Conn.bN] ++ Conn.ssbN :: []) "J2000").ev 5).2 = 0) :=
  ⟨⟨by decide, by decide, by decide⟩,
   c6_connect_inverse Conn.idT (fun _ _ _ _ => rfl) (fun _ _ _ _ => rfl)
     (fun _ _ => rfl) [Conn.aN] [Conn.bN] [] Conn.ssbN
     (by decide) (by decide) (by decide) "J2000" 5⟩

/-- Looking up the key just inserted yields the inserted value. -/
theorem alookup_ainsert_self {α β : Type} [DecidableEq α]
    (l : List (α × β)) (k : α) (v : β) :
    BP.alookup (BP.ainsert l k v) k = some v := by
  induction l with
  | nil => simp [BP.ainsert, BP.alookup]
  | cons kv r ih =>
    obtain ⟨k0, v0⟩ := kv
    by_cases hk : k0 = k
    · simp [BP.ainsert, BP.alookup, hk]
    · simp [BP.ainsert, BP.alookup, hk, ih]

/-- Inserting under a different key does not change a lookup. -/
theorem alookup_ainsert_other {α β : Type} [DecidableEq α]
    (l : List (α × β)) (k k2 : α) (v : β) (h : k ≠ k2) :
    BP.alookup (BP.ainsert l k2 v) k = BP.alookup l k := by
  induction l with
  | nil =>
    simp only [BP.ainsert, BP.alookup]
    rw [if_neg (Ne.symm h)]
  | cons kv r ih =>
    obtain ⟨k0, v0⟩ := kv
    simp only [BP.ainsert]
    by_cases hk : k0 = k2
    · rw [if_pos hk]
      subst hk
      simp only [BP.alookup]
      rw [if_neg (Ne.symm h), if_neg (Ne.symm h)]
    · rw [if_neg hk]
      simp only [BP.alookup]
      by_cases hkk : k0 = k
      · rw [if_pos hkk, if_pos hkk]
      · rw [if_neg hkk, if_neg hkk, ih]

/-- Insertion never causes a present key to disappear. -/
theorem isSome_alookup_ainsert {α β : Type} [DecidableEq α]
    (l : List (α × β)) (k k2 : α) (v : β)
    (h : (BP.alookup l k).isSome = true) :
    (BP.alookup (BP.ainsert l k2 v) k).isSome = true := by
  by_cases hk : k = k2
  · subst hk
    rw [alookup_ainsert_self]
    rfl
  · rw [alookup_ainsert_other l k k2 v hk]
    exact h

/-- In-place updates do not change which keys are present. -/
theorem isSome_alookup_aupd {α β : Type} [DecidableEq α]
    (f : β → β) (l : List (α × β)) (k k2 : α) :
    (BP.alookup (BP.aupd f l k2) k).isSome = (BP.alookup l k).isSome := by
  induction l with
  | nil => simp [BP.aupd]
  | cons kv r ih =>
    obtain ⟨k0, v0⟩ := kv
    simp only [BP.aupd]
    by_cases hk : k0 = k2
    · rw [if_pos hk]
      simp only [BP.alookup]
      by_cases hkk : k0 = k
      · rw [if_pos hkk, if_pos hkk]
        rfl
      · rw [if_neg hkk, if_neg hkk]
    · rw [if_neg hk]
      simp only [BP.alookup]
      by_cases hkk : k0 = k
      · rw [if_pos hkk, if_pos hkk]
      · rw [if_neg hkk, if_neg hkk, ih]

/-- Appending a fresh element preserves `Nodup`. -/
theorem nodup_append_one {α : Type} (l : List α) (x : α)
    (h1 : l.Nodup) (h2 : x ∉ l) : (l ++ [x]).Nodup := by
  rw [List.nodup_append]
  refine ⟨h1, List.nodup_singleton x, fun a ha hax => ?_⟩
  rw [List.mem_singleton] at hax
  exact h2 (hax ▸ ha)

/-- An event getter called on the empty chain never changes the state. -/
theorem getEvF_nil (m : BP.BPModel) (fuel : ℕ) (k : BP.GKind) (st : BP.BPState) :
    (BP.getEvF m fuel [] k st).2 = st := by
  cases fuel with
  | zero => rfl
  | succ f => cases k <;> (simp only [BP.getEvF]; split <;> rfl)

/-- `get_surface_event` on a cache hit returns the cached event unchanged. -/
theorem getEvF_plain_hit (m : BP.BPModel) (fuel : ℕ) (st : BP.BPState)
    (b : String) (rest : BP.EKey) (ev : BP.Ev)
    (halo : BP.alookup st.surfaceEvents (b :: rest) = some ev) :
    BP.getEvF m (fuel + 1) (b :: rest) .plain st = (ev, st) := by
  simp only [BP.getEvF, halo]

/-- `get_surface_event` diverts Sun-headed multi-hop chains to
`get_path_event`. -/
theorem getEvF_plain_sun (m : BP.BPModel) (fuel : ℕ) (st : BP.BPState)
    (b : String) (rest : BP.EKey)
    (halo : BP.alookup st.surfaceEvents (b :: rest) = none)
    (hsun : BP.pyUpper b = "SUN" ∧ rest ≠ []) :
    BP.getEvF m (fuel + 1) (b :: rest) .plain st =
      BP.getEvF m fuel (b :: rest) .pathEv st := by
  simp only [BP.getEvF, halo]
  rw [if_pos hsun]

/-- `get_surface_event` defers to the with-derivatives getter for one-body
chains whose surface implements intercept derivatives. -/
theorem getEvF_plain_derivs (m : BP.BPModel) (fuel : ℕ) (st : BP.BPState)
    (b : String) (rest : BP.EKey)
    (halo : BP.alookup st.surfaceEvents (b :: rest) = none)
    (hsun : ¬ (BP.pyUpper b = "SUN" ∧ rest ≠ []))
    (hder : (b :: rest).length = 1 ∧ m.derivsImpl b) :
    BP.getEvF m (fuel + 1) (b :: rest) .plain st =
      ((BP.alookup (BP.getEvF m fuel (b :: rest) .wd
          (BP.getEvF m fuel rest .plain st).2).2.surfaceEvents (b :: rest)).getD
          BP.defEv,
       (BP.getEvF m fuel (b :: rest) .wd
          (BP.getEvF m fuel rest .plain st).2).2) := by
  simp only [BP.getEvF, halo]
  rw [if_neg hsun, if_pos hder]

/-- `get_surface_event` on a full miss resolves the destination, invokes the
surface photon solver and caches the result. -/
theorem getEvF_plain_solve (m : BP.BPModel) (fuel : ℕ) (st : BP.BPState)
    (b : String) (rest : BP.EKey)
    (halo : BP.alookup st.surfaceEvents (b :: rest) = none)
    (hsun : ¬ (BP.pyUpper b = "SUN" ∧ rest ≠ []))
    (hder : ¬ ((b :: rest).length = 1 ∧ m.derivsImpl b)) :
    BP.getEvF m (fuel + 1) (b :: rest) .plain st =
      (m.solveSurf (b :: rest) false,
       { (BP.getEvF m fuel rest .plain st).2 with
         surfaceEvents := BP.ainsert
           (BP.getEvF m fuel rest .plain st).2.surfaceEvents
           (b :: rest) (m.solveSurf (b :: rest) false),
         log := (BP.getEvF m fuel rest .plain st).2.log ++
           [BP.SolveCall.surf (b :: rest) false] }) := by
  simp only [BP.getEvF, halo]
  rw [if_neg hsun, if_neg hder]

/-- `get_surface_event_w_derivs` on a cache hit. -/
theorem getEvF_wd_hit (m : BP.BPModel) (fuel : ℕ) (st : BP.BPState)
    (b : String) (rest : BP.EKey) (ev : BP.Ev)
    (halo : BP.alookup st.surfaceEventsWD (b :: rest) = some ev) :
    BP.getEvF m (fuel + 1) (b :: rest) .wd st = (ev, st) := by
  simp only [BP.getEvF, halo]

/-- `get_surface_event_w_derivs` on a miss solves with derivatives and caches
into both surface dictionaries. -/
theorem getEvF_wd_solve (m : BP.BPModel) (fuel : ℕ) (st : BP.BPState)
    (b : String) (rest : BP.EKey)
    (halo : BP.alookup st.surfaceEventsWD (b :: rest) = none) :
    BP.getEvF m (fuel + 1) (b :: rest) .wd st =
      (m.solveSurf (b :: rest) true,
       { (BP.getEvF m fuel rest .plain st).2 with
         surfaceEventsWD := BP.ainsert
           (BP.getEvF m fuel rest .plain st).2.surfaceEventsWD
           (b :: rest) (m.solveSurf (b :: rest) true),
         surfaceEvents := BP.ainsert
           (BP.getEvF m fuel rest .plain st).2.surfaceEvents
           (b :: rest) (m.solveSurf (b :: rest) true),
         log := (BP.getEvF m fuel rest .plain st).2.log ++
           [BP.SolveCall.surf (b :: rest) true] }) := by
  simp only [BP.getEvF, halo]

/-- `get_path_event` on a cache hit. -/
theorem getEvF_path_hit (m : BP.BPModel) (fuel : ℕ) (st : BP.BPState)
    (b : String) (rest : BP.EKey) (ev : BP.Ev)
    (halo : BP.alookup st.pathEvents (b :: rest) = some ev) :
    BP.getEvF m (fuel + 1) (b :: rest) .pathEv st = (ev, st) := by
  simp only [BP.getEvF, halo]

/-- `get_path_event` on a miss solves the path photon, caches it, and
backfills the arrival flag on the destination's cached surface event. -/
theorem getEvF_path_solve (m : BP.BPModel) (fuel : ℕ) (st : BP.BPState)
    (b : String) (rest : BP.EKey)
    (halo : BP.alookup st.pathEvents (b :: rest) = none) :
    BP.getEvF m (fuel + 1) (b :: rest) .pathEv st =
      (m.solvePath (b :: rest),
       { (BP.getEvF m fuel rest .plain st).2 with
         pathEvents := BP.ainsert (BP.getEvF m fuel rest .plain st).2.pathEvents
           (b :: rest) (m.solvePath (b :: rest)),
         surfaceEvents := BP.aupd (fun e => { e with hasArr := true })
           (BP.getEvF m fuel rest .plain st).2.surfaceEvents rest,
         log := (BP.getEvF m fuel rest .plain st).2.log ++
           [BP.SolveCall.path (b :: rest)] }) := by
  simp only [BP.getEvF, halo]

/-- Any key newly present in one of the three event dictionaries after a
getter call on chain `c` has length at most `c.length`: the getters insert
only the chain itself and keys produced while resolving its tail. -/
theorem getEvF_keys (m : BP.BPModel) :
    ∀ (fuel : ℕ) (c : BP.EKey) (k : BP.GKind) (st : BP.BPState) (c2 : BP.EKey),
      (((BP.alookup (BP.getEvF m fuel c k st).2.surfaceEvents c2).isSome = true →
          (BP.alookup st.surfaceEvents c2).isSome = true ∨ c2.length ≤ c.length) ∧
       ((BP.alookup (BP.getEvF m fuel c k st).2.surfaceEventsWD c2).isSome = true →
          (BP.alookup st.surfaceEventsWD c2).isSome = true ∨ c2.length ≤ c.length) ∧
       ((BP.alookup (BP.getEvF m fuel c k st).2.pathEvents c2).isSome = true →
          (BP.alookup st.pathEvents c2).isSome = true ∨ c2.length ≤ c.length)) := by
  intro fuel
  induction fuel with
  | zero =>
    intro c k st c2
    exact ⟨fun h => Or.inl h, fun h => Or.inl h, fun h => Or.inl h⟩
  | succ fuel ih =>
    intro c k st c2
    cases c with
    | nil =>
      rw [getEvF_nil]
      exact ⟨fun h => Or.inl h, fun h => Or.inl h, fun h => Or.inl h⟩
    | cons b rest =>
      have hlen : rest.length ≤ (b :: rest).length := by
        simp only [List.length_cons]
        omega
      cases k with
      | plain =>
        cases halo : BP.alookup st.surfaceEvents (b :: rest) with
        | some ev =>
          rw [getEvF_plain_hit m fuel st b rest ev halo]
          exact ⟨fun h => Or.inl h, fun h => Or.inl h, fun h => Or.inl h⟩
        | none =>
          by_cases hsun : BP.pyUpper b = "SUN" ∧ rest ≠ []
          · rw [getEvF_plain_sun m fuel st b rest halo hsun]
            exact ih (b :: rest) .pathEv st c2
          · have h1 := ih rest .plain st c2
            by_cases hder : (b :: rest).length = 1 ∧ m.derivsImpl b
            · rw [getEvF_plain_derivs m fuel st b rest halo hsun hder]
              have h2 := ih (b :: rest) .wd (BP.getEvF m fuel rest .plain st).2 c2
              refine ⟨fun hh => ?_, fun hh => ?_, fun hh => ?_⟩
              · rcases h2.1 hh with hh2 | hh2
                · rcases h1.1 hh2 with hh1 | hh1
                  · exact Or.inl hh1
                  · exact Or.inr (le_trans hh1 hlen)
                · exact Or.inr hh2
              · rcases h2.2.1 hh with hh2 | hh2
                · rcases h1.2.1 hh2 with hh1 | hh1
                  · exact Or.inl hh1
                  · exact Or.inr (le_trans hh1 hlen)
                · exact Or.inr hh2
              · rcases h2.2.2 hh with hh2 | hh2
                · rcases h1.2.2 hh2 with hh1 | hh1
                  · exact Or.inl hh1
                  · exact Or.inr (le_trans hh1 hlen)
                · exact Or.inr hh2
            · rw [getEvF_plain_solve m fuel st b rest halo hsun hder]
              refine ⟨fun hh => ?_, fun hh => ?_, fun hh => ?_⟩
              · replace hh : (BP.alookup (BP.ainsert
                    (BP.getEvF m fuel rest .plain st).2.surfaceEvents
                    (b :: rest) (m.solveSurf (b :: rest) false)) c2).isSome =
                    true := hh
                by_cases hc2 : c2 = b :: rest
                · exact Or.inr (by rw [hc2])
                · rw [alookup_ainsert_other _ _ _ _ hc2] at hh
                  rcases h1.1 hh with hh1 | hh1
                  · exact Or.inl hh1
                  · exact Or.inr (le_trans hh1 hlen)
              · replace hh : (BP.alookup
                    (BP.getEvF m fuel rest .plain st).2.surfaceEventsWD
                    c2).isSome = true := hh
                rcases h1.2.1 hh with hh1 | hh1
                · exact Or.inl hh1
                · exact Or.inr (le_trans hh1 hlen)
              · replace hh : (BP.alookup
                    (BP.getEvF m fuel rest .plain st).2.pathEvents
                    c2).isSome = true := hh
                rcases h1.2.2 hh with hh1 | hh1
                · exact Or.inl hh1
                · exact Or.inr (le_trans hh1 hlen)
      | wd =>
        cases halo : BP.alookup st.surfaceEventsWD (b :: rest) with
        | some ev =>
          rw [getEvF_wd_hit m fuel st b rest ev halo]
          exact ⟨fun h => Or.inl h, fun h => Or.inl h, fun h => Or.inl h⟩
        | none =>
          have h1 := ih rest .plain st c2
          rw [getEvF_wd_solve m fuel st b rest halo]
          refine ⟨fun hh => ?_, fun hh => ?_, fun hh => ?_⟩
          · replace hh : (BP.alookup (BP.ainsert
                (BP.getEvF m fuel rest .plain st).2.surfaceEvents
                (b :: rest) (m.solveSurf (b :: rest) true)) c2).isSome =
                true := hh
            by_cases hc2 : c2 = b :: rest
            · exact Or.inr (by rw [hc2])
            · rw [alookup_ainsert_other _ _ _ _ hc2] at hh
              rcases h1.1 hh with hh1 | hh1
              · exact Or.inl hh1
              · exact Or.inr (le_trans hh1 hlen)
          · replace hh : (BP.alookup (BP.ainsert
                (BP.getEvF m fuel rest .plain st).2.surfaceEventsWD
                (b :: rest) (m.solveSurf (b :: rest) true)) c2).isSome =
                true := hh
            by_cases hc2 : c2 = b :: rest
            · exact Or.inr (by rw [hc2])
            · rw [alookup_ainsert_other _ _ _ _ hc2] at hh
              rcases h1.2.1 hh with hh1 | hh1
              · exact Or.inl hh1
              · exact Or.inr (le_trans hh1 hlen)
          · replace hh : (BP.alookup
                (BP.getEvF m fuel rest .plain st).2.pathEvents
                c2).isSome = true := hh
            rcases h1.2.2 hh with hh1 | hh1
            · exact Or.inl hh1
            · exact Or.inr (le_trans hh1 hlen)
      | pathEv =>
        cases halo : BP.alookup st.pathEvents (b :: rest) with
        | some ev =>
          rw [getEvF_path_hit m fuel st b rest ev halo]
          exact ⟨fun h => Or.inl h, fun h => Or.inl h, fun h => Or.inl h⟩
        | none =>
          have h1 := ih rest .plain st c2
          rw [getEvF_path_solve m fuel st b rest halo]
          refine ⟨fun hh => ?_, fun hh => ?_, fun hh => ?_⟩
          · replace hh : (BP.alookup (BP.aupd (fun e => { e with hasArr := true })
                (BP.getEvF m fuel rest .plain st).2.surfaceEvents rest)
                c2).isSome = true := hh
            rw [isSome_alookup_aupd] at hh
            rcases h1.1 hh with hh1 | hh1
            · exact Or.inl hh1
            · exact Or.inr (le_trans hh1 hlen)
          · replace hh : (BP.alookup
                (BP.getEvF m fuel rest .plain st).2.surfaceEventsWD
                c2).isSome = true := hh
            rcases h1.2.1 hh with hh1 | hh1
            · exact Or.inl hh1
            · exact Or.inr (le_trans hh1 hlen)
          · replace hh : (BP.alookup (BP.ainsert
                (BP.getEvF m fuel rest .plain st).2.pathEvents
                (b :: rest) (m.solvePath (b :: rest))) c2).isSome = true := hh
            by_cases hc2 : c2 = b :: rest
            · exact Or.inr (by rw [hc2])
            · rw [alookup_ainsert_other _ _ _ _ hc2] at hh
              rcases h1.2.2 hh with hh1 | hh1
              · exact Or.inl hh1
              · exact Or.inr (le_trans hh1 hlen)

/-- The event getters preserve the cache/log coherence invariant: every
logged solver call stays cached, and a solver is only invoked — and logged —
on a cache miss, so no call is ever logged twice. -/
theorem getEvF_inv (m : BP.BPModel) :
    ∀ (fuel : ℕ) (c : BP.EKey) (k : BP.GKind) (st : BP.BPState),
      BP.Inv st → BP.Inv (BP.getEvF m fuel c k st).2 := by
  intro fuel
  induction fuel with
  | zero => intro c k st h; exact h
  | succ fuel ih =>
    intro c k st h
    cases c with
    | nil => rw [getEvF_nil]; exact h
    | cons b rest =>
      cases k with
      | plain =>
        cases halo : BP.alookup st.surfaceEvents (b :: rest) with
        | some ev =>
          rw [getEvF_plain_hit m fuel st b rest ev halo]
          exact h
        | none =>
          by_cases hsun : BP.pyUpper b = "SUN" ∧ rest ≠ []
          · rw [getEvF_plain_sun m fuel st b rest halo hsun]
            exact ih (b :: rest) .pathEv st h
          · by_cases hder : (b :: rest).length = 1 ∧ m.derivsImpl b
            · rw [getEvF_plain_derivs m fuel st b rest halo hsun hder]
              exact ih (b :: rest) .wd _ (ih rest .plain st h)
            · rw [getEvF_plain_solve m fuel st b rest halo hsun hder]
              have hd := ih rest .plain st h
              have hnot : BP.SolveCall.surf (b :: rest) false ∉
                  (BP.getEvF m fuel rest .plain st).2.log := by
                intro hmem
                have hcached := hd.1 (b :: rest) hmem
                rcases (getEvF_keys m fuel rest .plain st (b :: rest)).1 hcached
                  with hc | hc
                · rw [halo] at hc
                  exact absurd hc (by simp)
                · simp only [List.length_cons] at hc
                  omega
              refine ⟨fun c2 hmem => ?_, fun c2 hmem => ?_,
                fun c2 hmem => ?_, ?_⟩
              · replace hmem : BP.SolveCall.surf c2 false ∈
                    (BP.getEvF m fuel rest .plain st).2.log ++
                    [BP.SolveCall.surf (b :: rest) false] := hmem
                rcases List.mem_append.mp hmem with hmem | hmem
                · exact isSome_alookup_ainsert _ _ _ _ (hd.1 c2 hmem)
                · rw [List.mem_singleton] at hmem
                  have hc2 : c2 = b :: rest := by
                    injection hmem
                  rw [hc2]
                  show (BP.alookup (BP.ainsert _ (b :: rest) _) (b :: rest)).isSome = true
                  rw [alookup_ainsert_self]
                  rfl
              · replace hmem : BP.SolveCall.surf c2 true ∈
                    (BP.getEvF m fuel rest .plain st).2.log ++
                    [BP.SolveCall.surf (b :: rest) false] := hmem
                rcases List.mem_append.mp hmem with hmem | hmem
                · exact hd.2.1 c2 hmem
                · rw [List.mem_singleton] at hmem
                  simp at hmem
              · replace hmem : BP.SolveCall.path c2 ∈
                    (BP.getEvF m fuel rest .plain st).2.log ++
                    [BP.SolveCall.surf (b :: rest) false] := hmem
                rcases List.mem_append.mp hmem with hmem | hmem
                · exact hd.2.2.1 c2 hmem
                · rw [List.mem_singleton] at hmem
                  simp at hmem
              · exact nodup_append_one _ _ hd.2.2.2 hnot
      | wd =>
        cases halo : BP.alookup st.surfaceEventsWD (b :: rest) with
        | some ev =>
          rw [getEvF_wd_hit m fuel st b rest ev halo]
          exact h
        | none =>
          rw [getEvF_wd_solve m fuel st b rest halo]
          have hd := ih rest .plain st h
          have hnot : BP.SolveCall.surf (b :: rest) true ∉
              (BP.getEvF m fuel rest .plain st).2.log := by
            intro hmem
            have hcached := hd.2.1 (b :: rest) hmem
            rcases (getEvF_keys m fuel rest .plain st (b :: rest)).2.1 hcached
              with hc | hc
            · rw [halo] at hc
              exact absurd hc (by simp)
            · simp only [List.length_cons] at hc
              omega
          refine ⟨fun c2 hmem => ?_, fun c2 hmem => ?_,
            fun c2 hmem => ?_, ?_⟩
          · replace hmem : BP.SolveCall.surf c2 false ∈
                (BP.getEvF m fuel rest .plain st).2.log ++
                [BP.SolveCall.surf (b :: rest) true] := hmem
            rcases List.mem_append.mp hmem with hmem | hmem
            · exact isSome_alookup_ainsert _ _ _ _ (hd.1 c2 hmem)
            · rw [List.mem_singleton] at hmem
              simp at hmem
          · replace hmem : BP.SolveCall.surf c2 true ∈
                (BP.getEvF m fuel rest .plain st).2.log ++
                [BP.SolveCall.surf (b :: rest) true] := hmem
            rcases List.mem_append.mp hmem with hmem | hmem
            · exact isSome_alookup_ainsert _ _ _ _ (hd.2.1 c2 hmem)
            · rw [List.mem_singleton] at hmem
              have hc2 : c2 = b :: rest := by
                injection hmem
              rw [hc2]
              show (BP.alookup (BP.ainsert _ (b :: rest) _) (b :: rest)).isSome = true
              rw [alookup_ainsert_self]
              rfl
          · replace hmem : BP.SolveCall.path c2 ∈
                (BP.getEvF m fuel rest .plain st).2.log ++
                [BP.SolveCall.surf (b :: rest) true] := hmem
            rcases List.mem_append.mp hmem with hmem | hmem
            · exact hd.2.2.1 c2 hmem
            · rw [List.mem_singleton] at hmem
              simp at hmem
          · exact nodup_append_one _ _ hd.2.2.2 hnot
      | pathEv =>
        cases halo : BP.alookup st.pathEvents (b :: rest) with
        | some ev =>
          rw [getEvF_path_hit m fuel st b rest ev halo]
          exact h
        | none =>
          rw [getEvF_path_solve m fuel st b rest halo]
          have hd := ih rest .plain st h
          have hnot : BP.SolveCall.path (b :: rest) ∉
              (BP.getEvF m fuel rest .plain st).2.log := by
            intro hmem
            have hcached := hd.2.2.1 (b :: rest) hmem
            rcases (getEvF_keys m fuel rest .plain st (b :: rest)).2.2 hcached
              with hc | hc
            · rw [halo] at hc
              exact absurd hc (by simp)
            · simp only [List.length_cons] at hc
              omega
          refine ⟨fun c2 hmem => ?_, fun c2 hmem => ?_,
            fun c2 hmem => ?_, ?_⟩
          · replace hmem : BP.SolveCall.surf c2 false ∈
                (BP.getEvF m fuel rest .plain st).2.log ++
                [BP.SolveCall.path (b :: rest)] := hmem
            rcases List.mem_append.mp hmem with hmem | hmem
            · show (BP.alookup (BP.aupd (fun e => { e with hasArr := true })
                  (BP.getEvF m fuel rest .plain st).2.surfaceEvents rest)
                  c2).isSome = true
              rw [isSome_alookup_aupd]
              exact hd.1 c2 hmem
            · rw [List.mem_singleton] at hmem
              simp at hmem
          · replace hmem : BP.SolveCall.surf c2 true ∈
                (BP.getEvF m fuel rest .plain st).2.log ++
                [BP.SolveCall.path (b :: rest)] := hmem
            rcases List.mem_append.mp hmem with hmem | hmem
            · exact hd.2.1 c2 hmem
            · rw [List.mem_singleton] at hmem
              simp at hmem
          · replace hmem : BP.SolveCall.path c2 ∈
                (BP.getEvF m fuel rest .plain st).2.log ++
                [BP.SolveCall.path (b :: rest)] := hmem
            rcases List.mem_append.mp hmem with hmem | hmem
            · exact isSome_alookup_ainsert _ _ _ _ (hd.2.2.1 c2 hmem)
            · rw [List.mem_singleton] at hmem
              have hc2 : c2 = b :: rest := by
                injection hmem
              rw [hc2]
              show (BP.alookup (BP.ainsert _ (b :: rest) _) (b :: rest)).isSome = true
              rw [alookup_ainsert_self]
              rfl
          · exact nodup_append_one _ _ hd.2.2.2 hnot

/-- The fueled-wrapper form of invariant preservation. -/
theorem getEv_inv (m : BP.BPModel) (c : BP.EKey) (k : BP.GKind)
    (st : BP.BPState) (h : BP.Inv st) : BP.Inv (BP.getEv m c k st).2 :=
  getEvF_inv m (3 * c.length + 2) c k st h

/-- `get_surface_event_with_arr` preserves the invariant. -/
theorem withArr_inv (m : BP.BPModel) (st : BP.BPState) (c : BP.EKey)
    (h : BP.Inv st) : BP.Inv (BP.getSurfaceEventWithArr m st c).2 := by
  simp only [BP.getSurfaceEventWithArr]
  split
  · exact getEv_inv m c .plain st h
  · exact getEv_inv m ("sun" :: c) .pathEv _ (getEv_inv m c .plain st h)

/-- `light_time` preserves the invariant. -/
theorem lightTimeQ_inv (m : BP.BPModel) (st : BP.BPState) (c : BP.EKey)
    (dir : BP.Dir) (h : BP.Inv st) : BP.Inv (BP.lightTimeQ m st c dir).2 := by
  cases dir with
  | arr =>
    simp only [BP.lightTimeQ]
    split
    · exact h
    · exact withArr_inv m st c h
  | dep =>
    simp only [BP.lightTimeQ]
    split
    · exact h
    · exact getEv_inv m c .plain st h

/-- `distance` preserves the invariant. -/
theorem distanceQ_inv (m : BP.BPModel) (st : BP.BPState) (c : BP.EKey)
    (dir : BP.Dir) (h : BP.Inv st) : BP.Inv (BP.distanceQ m st c dir).2 := by
  simp only [BP.distanceQ]
  split
  · exact h
  · exact lightTimeQ_inv m st c dir h

/-- `finest_resolution` preserves the invariant. -/
theorem finestResQ_inv (m : BP.BPModel) (st : BP.BPState) (c : BP.EKey)
    (h : BP.Inv st) : BP.Inv (BP.finestResQ m st c).2 := by
  simp only [BP.finestResQ]
  split
  · exact h
  · exact getEv_inv m c .wd st h

/-- Every request preserves the invariant. -/
theorem runReq_inv (m : BP.BPModel) (st : BP.BPState) (r : BP.Req)
    (h : BP.Inv st) : BP.Inv (BP.runReq m st r) := by
  cases r with
  | dist c dir => exact distanceQ_inv m st c dir h
  | ltq c dir => exact lightTimeQ_inv m st c dir h
  | fin c => exact finestResQ_inv m st c h

/-- Request sequences preserve the invariant. -/
theorem runReqs_inv (m : BP.BPModel) (reqs : List BP.Req) (st : BP.BPState)
    (h : BP.Inv st) : BP.Inv (BP.runReqs m reqs st) := by
  induction reqs generalizing st with
  | nil => exact h
  | cons r rs ih => exact ih _ (runReq_inv m st r h)

/-- A fresh Backplane satisfies the invariant (its log is empty). -/
theorem inv_init (m : BP.BPModel) : BP.Inv (BP.initState m) :=
  ⟨fun _ hc => absurd hc (List.not_mem_nil _),
   fun _ hc => absurd hc (List.not_mem_nil _),
   fun _ hc => absurd hc (List.not_mem_nil _),
   List.nodup_nil⟩

/-- `distance` on a cached key returns the cached value with no state
change. -/
theorem distanceQ_cached (m : BP.BPModel) (st : BP.BPState) (c : BP.EKey)
    (dir : BP.Dir) (v : ℚ)
    (hk : BP.alookup st.backplanes (BP.BKey.distance c dir) = some v) :
    BP.distanceQ m st c dir = (v, st) := by
  simp only [BP.distanceQ, hk]

/-- After any `distance` call its key is cached with the returned value. -/
theorem distanceQ_result (m : BP.BPModel) (st : BP.BPState) (c : BP.EKey)
    (dir : BP.Dir) :
    BP.alookup (BP.distanceQ m st c dir).2.backplanes
      (BP.BKey.distance c dir) = some (BP.distanceQ m st c dir).1 := by
  cases hk : BP.alookup st.backplanes (BP.BKey.distance c dir) with
  | some v =>
    rw [distanceQ_cached m st c dir v hk]
    exact hk
  | none =>
    simp only [BP.distanceQ, hk]
    have hs : BP.alookup (BP.registerBP (BP.lightTimeQ m st c dir).2
        (BP.BKey.distance c dir)
        ((BP.lightTimeQ m st c dir).1 * Photon.cLight ℚ)).backplanes
        (BP.BKey.distance c dir) =
        some ((BP.lightTimeQ m st c dir).1 * Photon.cLight ℚ) :=
      alookup_ainsert_self _ _ _
    rw [hs]
    rfl

/-- A repeated `distance` call with structurally equal arguments returns the
identical cached value and leaves the state — caches and solver log —
untouched. -/
theorem distanceQ_repeat (m : BP.BPModel) (st : BP.BPState) (c : BP.EKey)
    (dir : BP.Dir) :
    BP.distanceQ m (BP.distanceQ m st c dir).2 c dir =
      BP.distanceQ m st c dir := by
  rw [distanceQ_cached m _ c dir _ (distanceQ_result m st c dir)]

/-- `light_time` on a cached key returns the cached value with no state
change. -/
theorem lightTimeQ_cached (m : BP.BPModel) (st : BP.BPState) (c : BP.EKey)
    (dir : BP.Dir) (v : ℚ)
    (hk : BP.alookup st.backplanes (BP.BKey.lightTime c dir) = some v) :
    BP.lightTimeQ m st c dir = (v, st) := by
  simp only [BP.lightTimeQ, hk]

/-- After any `light_time` call its key is cached with the returned value. -/
theorem lightTimeQ_result (m : BP.BPModel) (st : BP.BPState) (c : BP.EKey)
    (dir : BP.Dir) :
    BP.alookup (BP.lightTimeQ m st c dir).2.backplanes
      (BP.BKey.lightTime c dir) = some (BP.lightTimeQ m st c dir).1 := by
  cases hk : BP.alookup st.backplanes (BP.BKey.lightTime c dir) with
  | some v =>
    rw [lightTimeQ_cached m st c dir v hk]
    exact hk
  | none =>
    cases dir with
    | arr =>
      simp only [BP.lightTimeQ, hk]
      have hs : BP.alookup (BP.registerBP (BP.getSurfaceEventWithArr m st c).2
          (BP.BKey.lightTime c BP.Dir.arr)
          |(BP.getSurfaceEventWithArr m st c).1.arrLt|).backplanes
          (BP.BKey.lightTime c BP.Dir.arr) =
          some |(BP.getSurfaceEventWithArr m st c).1.arrLt| :=
        alookup_ainsert_self _ _ _
      rw [hs]
      rfl
    | dep =>
      simp only [BP.lightTimeQ, hk]
      have hs : BP.alookup (BP.registerBP (BP.getEv m c .plain st).2
          (BP.BKey.lightTime c BP.Dir.dep)
          |(BP.getEv m c .plain st).1.depLt|).backplanes
          (BP.BKey.lightTime c BP.Dir.dep) =
          some |(BP.getEv m c .plain st).1.depLt| :=
        alookup_ainsert_self _ _ _
      rw [hs]
      rfl

/-- A repeated `light_time` call with structurally equal arguments returns
the identical cached value and leaves the state untouched. -/
theorem lightTimeQ_repeat (m : BP.BPModel) (st : BP.BPState) (c : BP.EKey)
    (dir : BP.Dir) :
    BP.lightTimeQ m (BP.lightTimeQ m st c dir).2 c dir =
      BP.lightTimeQ m st c dir := by
  rw [lightTimeQ_cached m _ c dir _ (lightTimeQ_result m st c dir)]

/-- `finest_resolution` on a cached key returns the cached value with no
state change. -/
theorem finestResQ_cached (m : BP.BPModel) (st : BP.BPState) (c : BP.EKey)
    (v : ℚ)
    (hk : BP.alookup st.backplanes (BP.BKey.finestRes c) = some v) :
    BP.finestResQ m st c = (v, st) := by
  simp only [BP.finestResQ, hk]

/-- After any `finest_resolution` call its key is cached with the returned
value (the later `coarsest_resolution` registration is under a different
key). -/
theorem finestResQ_result (m : BP.BPModel) (st : BP.BPState) (c : BP.EKey) :
    BP.alookup (BP.finestResQ m st c).2.backplanes (BP.BKey.finestRes c) =
      some (BP.finestResQ m st c).1 := by
  cases hk : BP.alookup st.backplanes (BP.BKey.finestRes c) with
  | some v =>
    rw [finestResQ_cached m st c v hk]
    exact hk
  | none =>
    simp only [BP.finestResQ, BP.fillSurfaceRes, hk]
    have hne : BP.BKey.finestRes c ≠ BP.BKey.coarsestRes c := fun h =>
      BP.BKey.noConfusion h
    have h1 : BP.alookup (BP.registerBP (BP.registerBP
        (BP.getEv m c .wd st).2 (BP.BKey.finestRes c)
        (m.fRes (BP.getEv m c .wd st).1)) (BP.BKey.coarsestRes c)
        (m.cRes (BP.getEv m c .wd st).1)).backplanes
        (BP.BKey.finestRes c) = some (m.fRes (BP.getEv m c .wd st).1) := by
      have h2 := alookup_ainsert_other
        (BP.registerBP (BP.getEv m c .wd st).2 (BP.BKey.finestRes c)
          (m.fRes (BP.getEv m c .wd st).1)).backplanes
        (BP.BKey.finestRes c) (BP.BKey.coarsestRes c)
        (m.cRes (BP.getEv m c .wd st).1) hne
      have h3 := alookup_ainsert_self (BP.getEv m c .wd st).2.backplanes
        (BP.BKey.finestRes c) (m.fRes (BP.getEv m c .wd st).1)
      exact h2.trans h3
    rw [h1]
    rfl

/-- A repeated `finest_resolution` call with structurally equal arguments
returns the identical cached value and leaves the state untouched. -/
theorem finestResQ_repeat (m : BP.BPModel) (st : BP.BPState) (c : BP.EKey) :
    BP.finestResQ m (BP.finestResQ m st c).2 c = BP.finestResQ m st c := by
  rw [finestResQ_cached m _ c _ (finestResQ_result m st c)]

/-- C2 counterexample: on a two-body chain `("a","b")` whose surfaces do not
implement intercept derivatives, requesting `distance` and then
`finest_resolution` invokes the surface photon solver twice for the same
chain — once without and once with derivatives — not exactly once as the
claim states. -/
theorem c2_counterexample :
    BP.countChainSurf (BP.runReqs BP.cexModel
      [BP.Req.dist ["a", "b"] BP.Dir.dep, BP.Req.fin ["a", "b"]]
      (BP.initState BP.cexModel)) ["a", "b"] = 2 ∧ (2 : ℕ) ≠ 1 := by
  exact ⟨by decide, by decide⟩

/-- C2 amended: for a fixed Backplane, a repeated quantity-method call with
structurally equal arguments — `distance`, `light_time` or
`finest_resolution` — returns the identical cached value and changes
nothing: no recomputation, no new solver invocations; and each photon-solver
invocation (a chain together with its derivatives flavour, or a path solve on
a chain) happens at most once over any request sequence.  The solver can,
however, run twice for the same chain across the two flavours, as the
counterexample shows. -/
theorem c2_amended (m : BP.BPModel) :
    (∀ (st : BP.BPState) (c : BP.EKey) (dir : BP.Dir),
      BP.distanceQ m (BP.distanceQ m st c dir).2 c dir =
        BP.distanceQ m st c dir) ∧
    (∀ (st : BP.BPState) (c : BP.EKey) (dir : BP.Dir),
      BP.lightTimeQ m (BP.lightTimeQ m st c dir).2 c dir =
        BP.lightTimeQ m st c dir) ∧
    (∀ (st : BP.BPState) (c : BP.EKey),
      BP.finestResQ m (BP.finestResQ m st c).2 c = BP.finestResQ m st c) ∧
    (∀ (reqs : List BP.Req) (sc : BP.SolveCall),
      (BP.runReqs m reqs (BP.initState m)).log.count sc ≤ 1) := by
  refine ⟨fun st c dir => distanceQ_repeat m st c dir,
    fun st c dir => lightTimeQ_repeat m st c dir,
    fun st c => finestResQ_repeat m st c, ?_⟩
  intro reqs sc
  have hinv := runReqs_inv m reqs _ (inv_init m)
  exact List.nodup_iff_count_le_one.mp hinv.2.2.2 sc
